import Mathlib

/-!
Verification model of the `omw` parameter-marshalling layer (Mathematica/WSTP
and Octave hosts).  The definitions below are a shallow embedding of
`src/mathematica.cpp`, `include/omw/mathematica.hpp`, `src/octave.cpp`,
`include/omw/octave.hpp`, `include/omw/mathematica/array.hpp` and
`include/omw/mathematica/matrix.hpp`.  The WSTP link is modelled as a token
stream with an explicit read position (marks are saved positions, seeking
restores them); the Octave argument list is a random-access list of values.
C++ exceptions are modelled by a result type whose error branch carries the
state at throw time (mutations before a throw persist, as in C++).
-/

namespace Omw

/-- `size_t` modulus: cursor arithmetic in the source uses `size_t`. -/
def wordSize : Nat := 2 ^ 64

/-- `std::numeric_limits<size_t>::max()`, the sentinel for "no call in
progress" used by `mathematica::mathematica` and `run_function`. -/
def closedSentinel : Nat := wordSize - 1

/-- Kinds reported by `WSGetType` (`WSTKINT`, `WSTKREAL`, `WSTKSTR`,
`WSTKSYM`, `WSTKFUNC`). -/
inductive WSTokenKind : Type
  | kInt | kReal | kStr | kSym | kFunc
deriving DecidableEq

/-- One value on the WSTP link.  Strings are byte lists (the source reads
them as C strings); reals carry an abstract payload. -/
inductive WSToken : Type
  | tInt (n : Int)
  | tReal (x : Int)
  | tStr (s : List Nat)
  | tSym (name : String)
  | tFunc (head : String) (nargs : Nat)
deriving DecidableEq

def WSToken.kind : WSToken → WSTokenKind
  | .tInt _ => .kInt
  | .tReal _ => .kReal
  | .tStr _ => .kStr
  | .tSym _ => .kSym
  | .tFunc _ _ => .kFunc

/-- Data written back on the link by `WSPut*` calls. -/
inductive WSOut : Type
  | oSym (name : String)
  | oInt (n : Int)
  | oReal (x : Int)
  | oStr (s : String)
  | oFunc (head : String) (nargs : Nat)
  | oNewPacket
  | oFlush
  | oNextPacket
deriving DecidableEq

/-- Structured payload of every `std::runtime_error` thrown by the library,
one constructor per throw site. -/
inductive MathError : Type
  /-- `mathematica::param_reader_base::check_parameter_idx`. -/
  | protocolError (name : String) (requested cur : Nat)
  /-- `octave::param_reader_base::check_parameter_idx`. -/
  | notEnoughParameters (name : String) (requested : Nat)
  /-- `param_reader<T0>::operator()` ("Failed to read parameter ..."). -/
  | typeMismatch (name : String) (idx : Nat)
  /-- mathematica tuple reader: "Expected a List for tuple parameter". -/
  | listExpected (name : String) (idx : Nat)
  /-- mathematica tuple reader: element-count mismatch. -/
  | tupleArity (expected actual : Nat) (name : String) (idx : Nat)
  /-- variant reader: "Failed to get variant for parameter". -/
  | variantNoMatch (name : String) (idx : Nat)
  /-- mathematica optional reader: "WSTP API state is not coherent". -/
  | symbolCoherence (name : String) (idx : Nat)
  /-- octave tuple reader: "Not enough args for building a tuple". -/
  | tupleNotEnoughArgs (n : Nat) (name : String) (idx : Nat)
  /-- a `std::runtime_error` raised by the user function body. -/
  | userError (msg : String)
deriving DecidableEq

/-- `what()` strings, mirroring the messages built at each throw site. -/
def MathError.message : MathError → String
  | .protocolError name req cur =>
      "Requested parameter " ++ name ++ " at index " ++ toString req ++
      " while the current available parameter is at index " ++ toString cur
  | .notEnoughParameters name req =>
      "Requested parameter " ++ name ++ " at index " ++ toString req ++
      "but there is not enough parameters"
  | .typeMismatch name idx =>
      "Failed to read parameter " ++ name ++ " at index " ++ toString idx
  | .listExpected name idx =>
      "Expected a List for tuple parameter " ++ name ++ " at index " ++ toString idx
  | .tupleArity expected actual name idx =>
      "The number of arguments for tuple does not match (got " ++ toString actual ++
      ", expected " ++ toString expected ++ ") for parameter " ++ name ++
      " at index " ++ toString idx
  | .variantNoMatch name idx =>
      "Failed to get variant for parameter " ++ name ++ " at index " ++ toString idx
  | .symbolCoherence name idx =>
      "WSTP API state is not coherent, expected a symbol while reading parameter " ++
      name ++ " at index " ++ toString idx
  | .tupleNotEnoughArgs n name idx =>
      "Not enough args for building a tuple of size " ++ toString n ++
      " for parameter " ++ name ++ " at index " ++ toString idx
  | .userError msg => msg

/-- A C++ exception in flight, classified by catch-clause compatibility:
`rt` is a `std::runtime_error` (every library error), `stdExn` any other
`std::exception`, `nonStd` anything not derived from `std::exception`. -/
inductive Exn : Type
  | rt (e : MathError)
  | stdExn (what : String)
  | nonStd (desc : String)
deriving DecidableEq

/-- `ex.what()` as seen by a catch clause (only used for caught classes). -/
def Exn.what : Exn → String
  | .rt e => e.message
  | .stdExn w => w
  | .nonStd d => d

/-- Outcome of a stateful computation: C++ exception semantics, where the
error branch keeps the state as mutated up to the throw. -/
inductive Result (σ : Type) (α : Type) : Type
  | ok (a : α) (st : σ)
  | err (e : Exn) (st : σ)

def Result.mapVal {σ α β : Type} (f : α → β) : Result σ α → Result σ β
  | .ok a st => .ok (f a) st
  | .err e st => .err e st

/-- The state reached by a computation, whether it returned or threw. -/
def Result.state {σ α : Type} : Result σ α → σ
  | .ok _ st => st
  | .err _ st => st

/-- Decoded parameter values (the shallow image of the C++ result types:
`bool`, `int`, `unsigned int`, `float`, `std::string`, `boost::optional`,
`std::tuple`, `boost::variant` with its runtime alternative tag). -/
inductive OMWValue : Type
  | vBool (b : Bool)
  | vInt (n : Int)
  | vUInt (n : Int)
  | vFloat (x : Int)
  | vStr (s : List Nat)
  | vNone
  | vSome (v : OMWValue)
  | vTuple (vs : List OMWValue)
  | vVariant (tag : Nat) (v : OMWValue)

/-! ## Mathematica wrapper state and WSTP primitives -/

/-- The `omw::mathematica` wrapper together with its link: `current_param_idx_`
(`cursor`), `has_result_`, `math_namespace_` (`ns`), and the link as a token
stream `tokens` with read position `pos` and output log `out`. -/
structure MathState : Type where
  tokens : List WSToken
  pos : Nat
  cursor : Nat
  hasResult : Bool
  out : List WSOut
  ns : String
deriving DecidableEq

def MathState.peek (s : MathState) : Option WSToken := s.tokens[s.pos]?

/-- `WSGetType`: peek the kind of the next token (none at end of stream). -/
def wsGetType (s : MathState) : Option WSTokenKind := s.peek.map WSToken.kind

/-- `WSGetSymbol`: consume a symbol token; fails without consuming otherwise. -/
def wsGetSymbol (s : MathState) : Option (String × MathState) :=
  match s.peek with
  | some (.tSym name) => some (name, { s with pos := s.pos + 1 })
  | _ => none

def int32Min : Int := -(2 ^ 31)
def int32Max : Int := 2 ^ 31

/-- `WSGetInteger32`: consume an integer token within `int` range. -/
def wsGetInteger32 (s : MathState) : Option (Int × MathState) :=
  match s.peek with
  | some (.tInt n) =>
      if int32Min ≤ n ∧ n < int32Max then some (n, { s with pos := s.pos + 1 }) else none
  | _ => none

def int64Min : Int := -(2 ^ 63)
def int64Max : Int := 2 ^ 63

/-- `WSGetInteger64`: consume an integer token within `wsint64` range. -/
def wsGetInteger64 (s : MathState) : Option (Int × MathState) :=
  match s.peek with
  | some (.tInt n) =>
      if int64Min ≤ n ∧ n < int64Max then some (n, { s with pos := s.pos + 1 }) else none
  | _ => none

/-- `WSGetReal32`: consume a real token. -/
def wsGetReal32 (s : MathState) : Option (Int × MathState) :=
  match s.peek with
  | some (.tReal x) => some (x, { s with pos := s.pos + 1 })
  | _ => none

/-- `WSGetString`: consume a string token. -/
def wsGetString (s : MathState) : Option (List Nat × MathState) :=
  match s.peek with
  | some (.tStr str) => some (str, { s with pos := s.pos + 1 })
  | _ => none

/-- `WSCheckFunction(link, head, &n)`: consume a function head with the given
name, yielding its argument count; fails without consuming otherwise. -/
def wsCheckFunction (head : String) (s : MathState) : Option (Nat × MathState) :=
  match s.peek with
  | some (.tFunc h n) => if h = head then some (n, { s with pos := s.pos + 1 }) else none
  | _ => none

def wsPutSymbol (name : String) (s : MathState) : MathState :=
  { s with out := s.out ++ [.oSym name] }

def wsPutInteger32 (n : Int) (s : MathState) : MathState :=
  { s with out := s.out ++ [.oInt n] }

def wsPutString (str : String) (s : MathState) : MathState :=
  { s with out := s.out ++ [.oStr str] }

/-! ## String unescaping (`mathematica_unescape`, mathematica.cpp lines 27-98)

The C++ loop runs `i` from `0` to `len` inclusive; `source[len]` is the `'\0'`
terminator, which the `Standard` state skips, the `ReadingEscape` state copies
as a verbatim `'\'`+NUL pair, and the `ReadingOctalEscape` state treats as a
non-octal terminator.  The loop's `i--` re-processing of the character that
ends an octal escape is inlined below as one unfolded `Standard` step, so the
recursion is structural on the remaining input. -/

inductive UState : Type
  | standard
  | readingEscape
  | readingOctal (cnum : Nat)

def unescapeGo : UState → List Nat → List Nat
  | .standard, [] => []
  | .standard, c :: rest =>
      if c = 92 then unescapeGo .readingEscape rest
      else if c ≠ 0 then c :: unescapeGo .standard rest
      else unescapeGo .standard rest
  | .readingEscape, [] => [92, 0]
  | .readingEscape, c :: rest =>
      if c = 48 then unescapeGo (.readingOctal 0) rest
      else if c = 110 then 10 :: unescapeGo .standard rest
      else if c = 114 then 13 :: unescapeGo .standard rest
      else if c = 116 then 9 :: unescapeGo .standard rest
      else 92 :: c :: unescapeGo .standard rest
  | .readingOctal cnum, [] => [cnum % 256]
  | .readingOctal cnum, c :: rest =>
      if 48 ≤ c ∧ c ≤ 55 then unescapeGo (.readingOctal (cnum * 8 + (c - 48))) rest
      else
        cnum % 256 ::
          (if c = 92 then unescapeGo .readingEscape rest
           else if c ≠ 0 then c :: unescapeGo .standard rest
           else unescapeGo .standard rest)

/-- `mathematica_unescape`: evaluate Mathematica escape sequences in a string
(received as a NUL-free C string, modelled as a byte list). -/
def mathematica_unescape (source : List Nat) : List Nat :=
  unescapeGo .standard source

/-- Value of a string of octal digits (`cnum = cnum * 8 + (c - '0')`). -/
def octVal (ds : List Nat) : Nat :=
  ds.foldl (fun acc d => acc * 8 + (d - 48)) 0

def isOctalDigit (c : Nat) : Bool := 48 ≤ c && c ≤ 55

/-! ## Mathematica parameter readers -/

/-- `mathematica::param_reader_base::check_parameter_idx`: pure check that the
requested ordinal index equals the cursor; it touches no link state. -/
def math_check_parameter_idx (idx : Nat) (name : String) (s : MathState) :
    Option MathError :=
  if s.cursor ≠ idx then some (.protocolError name idx s.cursor) else none

/-- `param_reader<bool>::try_read` (mathematica.cpp 178-226): mark, get a
symbol, compare against `True`/`False`; advance the cursor only on
success+getData; seek back to the mark on failure or in type-test mode. -/
def math_try_read_bool (idx : Nat) (name : String) (s : MathState)
    (getData : Bool) : Result MathState (OMWValue × Bool) :=
  match math_check_parameter_idx idx name s with
  | some e => .err (.rt e) s
  | none =>
    match wsGetSymbol s with
    | none => .ok (.vBool false, false) s
    | some (sym, s1) =>
      let value : Bool := sym = "True"
      let success : Bool := sym = "True" || sym = "False"
      let s2 := if success && getData then
                  { s1 with cursor := (s1.cursor + 1) % wordSize } else s1
      let s3 := if !success || !getData then { s2 with pos := s.pos } else s2
      .ok (.vBool value, success) s3

/-- `param_reader<int>::try_read` (mathematica.cpp 228-258). -/
def math_try_read_int (idx : Nat) (name : String) (s : MathState)
    (getData : Bool) : Result MathState (OMWValue × Bool) :=
  match math_check_parameter_idx idx name s with
  | some e => .err (.rt e) s
  | none =>
    if getData then
      match wsGetInteger32 s with
      | none => .ok (.vInt 0, false) s
      | some (n, s1) => .ok (.vInt n, true) { s1 with cursor := (s1.cursor + 1) % wordSize }
    else
      .ok (.vInt 0, decide (wsGetType s = some .kInt)) s

/-- `param_reader<unsigned int>::try_read` (mathematica.cpp 260-290): reads a
64-bit integer and truncates it to `unsigned int`. -/
def math_try_read_uint (idx : Nat) (name : String) (s : MathState)
    (getData : Bool) : Result MathState (OMWValue × Bool) :=
  match math_check_parameter_idx idx name s with
  | some e => .err (.rt e) s
  | none =>
    if getData then
      match wsGetInteger64 s with
      | none => .ok (.vUInt 0, false) s
      | some (n, s1) =>
          .ok (.vUInt (n % (2 ^ 32)), true) { s1 with cursor := (s1.cursor + 1) % wordSize }
    else
      .ok (.vUInt 0, decide (wsGetType s = some .kInt)) s

/-- `param_reader<float>::try_read` (mathematica.cpp 292-322). -/
def math_try_read_float (idx : Nat) (name : String) (s : MathState)
    (getData : Bool) : Result MathState (OMWValue × Bool) :=
  match math_check_parameter_idx idx name s with
  | some e => .err (.rt e) s
  | none =>
    if getData then
      match wsGetReal32 s with
      | none => .ok (.vFloat 0, false) s
      | some (x, s1) => .ok (.vFloat x, true) { s1 with cursor := (s1.cursor + 1) % wordSize }
    else
      .ok (.vFloat 0, decide (wsGetType s = some .kReal)) s

/-- `param_reader<std::string>::try_read` (mathematica.cpp 324-356): the
committed value is passed through `mathematica_unescape`. -/
def math_try_read_string (idx : Nat) (name : String) (s : MathState)
    (getData : Bool) : Result MathState (OMWValue × Bool) :=
  match math_check_parameter_idx idx name s with
  | some e => .err (.rt e) s
  | none =>
    if getData then
      match wsGetString s with
      | none => .ok (.vStr [], false) s
      | some (str, s1) =>
          .ok (.vStr (mathematica_unescape str), true)
            { s1 with cursor := (s1.cursor + 1) % wordSize }
    else
      .ok (.vStr [], decide (wsGetType s = some .kStr)) s

/-- The atomic parameter shapes with a `param_reader` specialization that the
variant reader can probe (`is_simple_param_type`). -/
inductive PAtom : Type
  | aBool | aInt | aUInt | aFloat | aStr
deriving DecidableEq

def math_atom_try_read : PAtom → Nat → String → MathState → Bool →
    Result MathState (OMWValue × Bool)
  | .aBool => math_try_read_bool
  | .aInt => math_try_read_int
  | .aUInt => math_try_read_uint
  | .aFloat => math_try_read_float
  | .aStr => math_try_read_string

/-- `param_reader<T0>::operator()` (mathematica.hpp 124-137, octave.hpp
96-109, textually identical): run `try_read` committing data; if the success
flag was cleared, throw "Failed to read parameter". -/
def runRead {σ : Type} (tr : Nat → String → σ → Bool → Result σ (OMWValue × Bool))
    (idx : Nat) (name : String) (st : σ) : Result σ OMWValue :=
  match tr idx name st true with
  | .ok (v, success) st' =>
      if success then .ok v st' else .err (.rt (.typeMismatch name idx)) st'
  | .err e st' => .err e st'

/-- `param_reader<T0>::is_type` (mathematica.hpp 148-154, octave.hpp 111-117):
run `try_read` in type-test mode and report the success flag. -/
def runIsType {σ : Type} (tr : Nat → String → σ → Bool → Result σ (OMWValue × Bool))
    (idx : Nat) (name : String) (st : σ) : Result σ Bool :=
  match tr idx name st false with
  | .ok (_, success) st' => .ok success st'
  | .err e st' => .err e st'

def math_read_atom (a : PAtom) : Nat → String → MathState → Result MathState OMWValue :=
  runRead (math_atom_try_read a)

def math_is_type_atom (a : PAtom) : Nat → String → MathState → Result MathState Bool :=
  runIsType (math_atom_try_read a)

/-- The type of a complete parameter read (`param_reader<T>::operator()`),
used to pass sub-readers to the composite readers. -/
def MParamReader : Type := Nat → String → MathState → Result MathState OMWValue

/-- `param_reader<boost::optional<T>>::operator()` (mathematica.hpp 180-231):
check the index; if the next wire value is a symbol, save a mark, read it; on
`Null` consume it and advance the cursor; otherwise seek back to the mark and
delegate to `get_param<T>` at the same index; with no symbol ahead delegate
directly. -/
def math_read_optional (sub : MParamReader) (idx : Nat) (name : String)
    (s : MathState) : Result MathState OMWValue :=
  match math_check_parameter_idx idx name s with
  | some e => .err (.rt e) s
  | none =>
    if wsGetType s = some .kSym then
      match wsGetSymbol s with
      | none => .err (.rt (.symbolCoherence name idx)) s
      | some (sym, s1) =>
        if sym = "Null" then
          .ok .vNone { s1 with cursor := (s1.cursor + 1) % wordSize }
        else
          Result.mapVal .vSome (sub idx name { s1 with pos := s.pos })
    else
      Result.mapVal .vSome (sub idx name s)

/-- `get_tuple_param_impl` (mathematica.hpp 255-260): read element `I` at
parameter index `firstParamIdx + I`, left to right. -/
def math_read_tuple_elems : List MParamReader → Nat → Nat → String → MathState →
    Result MathState (List OMWValue)
  | [], _, _, _, s => .ok [] s
  | r :: rs, base, k, name, s =>
    match r (base + k) name s with
    | .err e s' => .err e s'
    | .ok v s' =>
      match math_read_tuple_elems rs base (k + 1) name s' with
      | .err e s'' => .err e s''
      | .ok vs s'' => .ok (v :: vs) s''

/-- `param_reader<std::tuple<Types...>>::operator()` (mathematica.hpp
271-306): check the first index, consume a `List` head of matching arity,
read the elements at sequential indices, then set the cursor to the saved
position plus one. -/
def math_read_tuple (subs : List MParamReader) (idx : Nat) (name : String)
    (s : MathState) : Result MathState OMWValue :=
  match math_check_parameter_idx idx name s with
  | some e => .err (.rt e) s
  | none =>
    match wsCheckFunction "List" s with
    | none => .err (.rt (.listExpected name idx)) s
    | some (nargs, s1) =>
      if nargs ≠ subs.length then
        .err (.rt (.tupleArity subs.length nargs name idx)) s1
      else
        let tupleIdx := s1.cursor
        match math_read_tuple_elems subs idx 0 name s1 with
        | .err e s2 => .err e s2
        | .ok vs s2 => .ok (.vTuple vs) { s2 with cursor := (tupleIdx + 1) % wordSize }

/-- One alternative of a variant: its `is_type` probe and committed read. -/
structure AltReader (σ : Type) : Type where
  isType : Nat → String → σ → Result σ Bool
  read : Nat → String → σ → Result σ OMWValue

/-- `param_reader<boost::variant<Types...>>::variant_reader` (mathematica.hpp
330-352 and octave.hpp 197-219, textually identical): probe the alternatives
in declaration order, commit the first whose type test succeeds; the last
alternative throws "Failed to get variant" when its test fails.  `tag` is the
position of the first remaining alternative in the declared list. -/
def read_variant_go {σ : Type} : List (AltReader σ) → Nat → Nat → String → σ →
    Result σ OMWValue
  | [], _, idx, name, st => .err (.rt (.variantNoMatch name idx)) st
  | [a], tag, idx, name, st =>
    match a.isType idx name st with
    | .err e st' => .err e st'
    | .ok b st' =>
      if b then Result.mapVal (.vVariant tag) (a.read idx name st')
      else .err (.rt (.variantNoMatch name idx)) st'
  | a :: b :: rest, tag, idx, name, st =>
    match a.isType idx name st with
    | .err e st' => .err e st'
    | .ok matched st' =>
      if matched then Result.mapVal (.vVariant tag) (a.read idx name st')
      else read_variant_go (b :: rest) (tag + 1) idx name st'

/-- `param_reader<boost::variant<Types...>>::operator()`. -/
def read_variant {σ : Type} (alts : List (AltReader σ)) (idx : Nat)
    (name : String) (st : σ) : Result σ OMWValue :=
  read_variant_go alts 0 idx name st

def mkMathAlt (a : PAtom) : AltReader MathState :=
  ⟨math_is_type_atom a, math_read_atom a⟩

/-- Parameter shape descriptors: the closed set of shapes the reader dispatch
is specialized for.  Variant alternatives are atomic (only atomic
`param_reader`s provide `is_type`). -/
inductive PShape : Type
  | atom (a : PAtom)
  | opt (t : PShape)
  | tuple (ts : List PShape)
  | variant (alts : List PAtom)

mutual

/-- Shapes that instantiate in C++: the tuple specialization requires more
than one element type and the variant one requires at least one alternative. -/
def PShape.wf : PShape → Bool
  | .atom _ => true
  | .opt t => t.wf
  | .tuple ts => decide (1 < ts.length) && PShape.wfList ts
  | .variant alts => decide (alts ≠ [])

/-- All shapes in a list are well-formed. -/
def PShape.wfList : List PShape → Bool
  | [] => true
  | t :: ts => t.wf && PShape.wfList ts

end

mutual

/-- `mathematica::get_param<T>`: dispatch to the `param_reader`
specialization selected by the shape of `T`. -/
def math_read_shape : PShape → MParamReader
  | .atom a => math_read_atom a
  | .opt t => math_read_optional (math_read_shape t)
  | .tuple ts => math_read_tuple (math_read_shapes ts)
  | .variant alts => read_variant (alts.map mkMathAlt)

/-- Readers for a list of shapes (the tuple's element readers). -/
def math_read_shapes : List PShape → List MParamReader
  | [] => []
  | t :: ts => math_read_shape t :: math_read_shapes ts

end

/-! ## Octave wrapper state and readers -/

/-- An `octave_value` as the readers use it (foreign type; only the
predicates and accessors the source calls are modelled). -/
inductive OctValue : Type
  | oBool (b : Bool)
  | oNum (n : Int)
  | oStr (s : List Nat)
deriving DecidableEq

def OctValue.isBoolType : OctValue → Bool
  | .oBool _ => true
  | _ => false

/-- `is_scalar_type`: 1x1 values; logical and numeric scalars qualify. -/
def OctValue.isScalarType : OctValue → Bool
  | .oBool _ => true
  | .oNum _ => true
  | _ => false

def OctValue.isNumericType : OctValue → Bool
  | .oNum _ => true
  | _ => false

def OctValue.isString : OctValue → Bool
  | .oStr _ => true
  | _ => false

def OctValue.isTrue : OctValue → Bool
  | .oBool b => b
  | _ => false

def OctValue.int32ScalarValue : OctValue → Int
  | .oBool b => if b then 1 else 0
  | .oNum n => n
  | .oStr _ => 0

def OctValue.floatValue : OctValue → Int
  | .oBool b => if b then 1 else 0
  | .oNum n => n
  | .oStr _ => 0

def OctValue.stringValue : OctValue → List Nat
  | .oStr s => s
  | _ => []

/-- The `omw::octave` wrapper: the positional argument list (`current_args_`),
the result accumulator (`result_`), and the diagnostic output stream
(`octave_stdout`), logged as (message name, message) pairs. -/
structure OctState : Type where
  args : List OctValue
  results : List OctValue
  out : List (String × String)
deriving DecidableEq

/-- `octave::param_reader_base::check_parameter_idx` (octave.cpp 65-74): a
bounds check only — there is no cursor on this host. -/
def oct_check_parameter_idx (idx : Nat) (name : String) (s : OctState) :
    Option MathError :=
  if s.args.length ≤ idx then some (.notEnoughParameters name idx) else none

def OctState.arg (s : OctState) (idx : Nat) : OctValue :=
  s.args.getD idx (.oNum 0)

/-- `octave::param_reader<bool>::try_read` (octave.cpp 104-116). -/
def oct_try_read_bool (idx : Nat) (name : String) (s : OctState)
    (_getData : Bool) : Result OctState (OMWValue × Bool) :=
  match oct_check_parameter_idx idx name s with
  | some e => .err (.rt e) s
  | none =>
    if !(s.arg idx).isBoolType then .ok (.vBool false, false) s
    else .ok (.vBool (s.arg idx).isTrue, true) s

/-- `octave::param_reader<int>::try_read` (octave.cpp 118-130). -/
def oct_try_read_int (idx : Nat) (name : String) (s : OctState)
    (_getData : Bool) : Result OctState (OMWValue × Bool) :=
  match oct_check_parameter_idx idx name s with
  | some e => .err (.rt e) s
  | none =>
    if !(s.arg idx).isScalarType then .ok (.vInt 0, false) s
    else .ok (.vInt (s.arg idx).int32ScalarValue, true) s

/-- `octave::param_reader<unsigned int>::try_read` (octave.cpp 132-145). -/
def oct_try_read_uint (idx : Nat) (name : String) (s : OctState)
    (_getData : Bool) : Result OctState (OMWValue × Bool) :=
  match oct_check_parameter_idx idx name s with
  | some e => .err (.rt e) s
  | none =>
    if !(s.arg idx).isScalarType then .ok (.vUInt 0, false) s
    else .ok (.vUInt ((s.arg idx).int32ScalarValue % (2 ^ 32)), true) s

/-- `octave::param_reader<float>::try_read` (octave.cpp 147-159). -/
def oct_try_read_float (idx : Nat) (name : String) (s : OctState)
    (_getData : Bool) : Result OctState (OMWValue × Bool) :=
  match oct_check_parameter_idx idx name s with
  | some e => .err (.rt e) s
  | none =>
    if !(s.arg idx).isNumericType then .ok (.vFloat 0, false) s
    else .ok (.vFloat (s.arg idx).floatValue, true) s

/-- `octave::param_reader<std::string>::try_read` (octave.cpp 161-174). -/
def oct_try_read_string (idx : Nat) (name : String) (s : OctState)
    (_getData : Bool) : Result OctState (OMWValue × Bool) :=
  match oct_check_parameter_idx idx name s with
  | some e => .err (.rt e) s
  | none =>
    if !(s.arg idx).isString then .ok (.vStr [], false) s
    else .ok (.vStr (s.arg idx).stringValue, true) s

def oct_atom_try_read : PAtom → Nat → String → OctState → Bool →
    Result OctState (OMWValue × Bool)
  | .aBool => oct_try_read_bool
  | .aInt => oct_try_read_int
  | .aUInt => oct_try_read_uint
  | .aFloat => oct_try_read_float
  | .aStr => oct_try_read_string

def oct_read_atom (a : PAtom) : Nat → String → OctState → Result OctState OMWValue :=
  runRead (oct_atom_try_read a)

def oct_is_type_atom (a : PAtom) : Nat → String → OctState → Result OctState Bool :=
  runIsType (oct_atom_try_read a)

/-- The type of a complete Octave parameter read. -/
def OParamReader : Type := Nat → String → OctState → Result OctState OMWValue

/-- `octave::param_reader<boost::optional<T>>::operator()` (octave.hpp
129-137): absence is signalled by running out of positional arguments. -/
def oct_read_optional (sub : OParamReader) (idx : Nat) (name : String)
    (s : OctState) : Result OctState OMWValue :=
  if s.args.length ≤ idx then .ok .vNone s
  else Result.mapVal .vSome (sub idx name s)

def oct_read_tuple_elems : List OParamReader → Nat → Nat → String → OctState →
    Result OctState (List OMWValue)
  | [], _, _, _, s => .ok [] s
  | r :: rs, base, k, name, s =>
    match r (base + k) name s with
    | .err e s' => .err e s'
    | .ok v s' =>
      match oct_read_tuple_elems rs base (k + 1) name s' with
      | .err e s'' => .err e s''
      | .ok vs s'' => .ok (v :: vs) s''

/-- `octave::param_reader<std::tuple<Types...>>::operator()` (octave.hpp
163-181): a tuple spans consecutive positional arguments. -/
def oct_read_tuple (subs : List OParamReader) (idx : Nat) (name : String)
    (s : OctState) : Result OctState OMWValue :=
  match oct_check_parameter_idx idx name s with
  | some e => .err (.rt e) s
  | none =>
    if s.args.length < idx + subs.length then
      .err (.rt (.tupleNotEnoughArgs subs.length name idx)) s
    else
      match oct_read_tuple_elems subs idx 0 name s with
      | .err e s' => .err e s'
      | .ok vs s' => .ok (.vTuple vs) s'

def mkOctAlt (a : PAtom) : AltReader OctState :=
  ⟨oct_is_type_atom a, oct_read_atom a⟩

mutual

/-- `octave::get_param<T>`: shape dispatch on the Octave host. -/
def oct_read_shape : PShape → OParamReader
  | .atom a => oct_read_atom a
  | .opt t => oct_read_optional (oct_read_shape t)
  | .tuple ts => oct_read_tuple (oct_read_shapes ts)
  | .variant alts => read_variant (alts.map mkOctAlt)

def oct_read_shapes : List PShape → List OParamReader
  | [] => []
  | t :: ts => oct_read_shape t :: oct_read_shapes ts

end

/-! ## Call-session controllers -/

/-- `mathematica::send_failure` (mathematica.cpp 153-170): the evaluate-packet
sequence followed by the `$Failed` sentinel; sets `has_result_`. -/
def math_send_failure (exceptionMessage messageName : String) (s : MathState) :
    MathState :=
  { s with
    out := s.out ++
      [.oNewPacket, .oFunc "EvaluatePacket" 1, .oFunc "Message" 2,
       .oFunc "MessageName" 2, .oSym s.ns, .oStr messageName,
       .oStr exceptionMessage, .oFlush, .oNextPacket, .oNewPacket,
       .oSym "$Failed"],
    hasResult := true }

/-- The cursor/flag reset at call entry (mathematica.cpp 123-124). -/
def mathSessionInit (s : MathState) : MathState :=
  { s with cursor := 0, hasResult := false }

/-- `mathematica::run_function` (mathematica.cpp 119-140): reset the session,
run the user function, put `Null` if it produced no result, catch
`std::exception` into `send_failure`, and reset the cursor to the closed
sentinel.  Exceptions not derived from `std::exception` are not caught. -/
def math_run_function (fn : MathState → Result MathState Unit) (s : MathState) :
    Result MathState Bool :=
  match fn (mathSessionInit s) with
  | .ok _ s1 =>
    let s2 := if !s1.hasResult then wsPutSymbol "Null" s1 else s1
    .ok true { s2 with cursor := closedSentinel }
  | .err e s1 =>
    match e with
    | .rt me =>
        .ok true { math_send_failure (Exn.what (.rt me)) "err" s1 with cursor := closedSentinel }
    | .stdExn w =>
        .ok true { math_send_failure w "err" s1 with cursor := closedSentinel }
    | .nonStd d => .err (.nonStd d) s1

/-- `octave::send_failure` (octave.cpp 99-102): one diagnostic line on
`octave_stdout`. -/
def oct_send_failure (exceptionMessage messageName : String) (s : OctState) :
    OctState :=
  { s with out := s.out ++ [(messageName, exceptionMessage)] }

/-- `octave::run_function` (octave.cpp 76-92): install the arguments, clear
the result list, run the user function and return the results; only
`std::runtime_error` is caught (then an empty list is returned).  Any other
exception propagates. -/
def oct_run_function (fn : OctState → Result OctState Unit) (args : List OctValue)
    (s : OctState) : Result OctState (List OctValue) :=
  match fn { s with args := args, results := [] } with
  | .ok _ s1 => .ok s1.results s1
  | .err e s1 =>
    match e with
    | .rt me => .ok [] (oct_send_failure me.message "err" s1)
    | .stdExn w => .err (.stdExn w) s1
    | .nonStd d => .err (.nonStd d) s1

/-! ## User function bodies on the Mathematica host

A user function body is a sequence of parameter reads, result writes
(`write_result`, which runs the writer inside `evaluate_result` and so sets
`has_result_`) and `std::runtime_error` raises. -/

/-- `result_writer<int>::operator()` under `evaluate_result`. -/
def math_write_result_int (n : Int) (s : MathState) : MathState :=
  { wsPutInteger32 n s with hasResult := true }

/-- `result_writer<std::string>::operator()` under `evaluate_result`. -/
def math_write_result_str (str : String) (s : MathState) : MathState :=
  { wsPutString str s with hasResult := true }

inductive MathAct : Type
  | actWriteInt (n : Int)
  | actWriteStr (str : String)
  | actRead (shp : PShape) (idx : Nat) (name : String)
  | actRaise (e : MathError)

def MathAct.isWrite : MathAct → Bool
  | .actWriteInt _ => true
  | .actWriteStr _ => true
  | _ => false

/-- Run a user function body; a failed read propagates its exception, as in
C++ (no handler inside the body). -/
def math_run_acts : List MathAct → MathState → Result MathState Unit
  | [], s => .ok () s
  | .actWriteInt n :: rest, s => math_run_acts rest (math_write_result_int n s)
  | .actWriteStr t :: rest, s => math_run_acts rest (math_write_result_str t s)
  | .actRead shp idx name :: rest, s =>
    match math_read_shape shp idx name s with
    | .ok _ s' => math_run_acts rest s'
    | .err e s' => .err e s'
  | .actRaise e :: _rest, s => .err (.rt e) s

/-- Output appended beyond a previous output log. -/
def outDelta (before after : MathState) : List WSOut :=
  after.out.drop before.out.length

def WSOut.isFailureHead : WSOut → Bool
  | .oFunc head nargs => head = "EvaluatePacket" && nargs = 1
  | _ => false

def WSOut.isNullSym : WSOut → Bool
  | .oSym name => name = "Null"
  | _ => false

/-- Plain data puts, the only output a `result_writer` for a scalar emits. -/
def WSOut.isData : WSOut → Bool
  | .oInt _ => true
  | .oReal _ => true
  | .oStr _ => true
  | _ => false

/-- Number of failure signals in an output log: each `send_failure` emits
exactly one `EvaluatePacket` head. -/
def countFailureSignals (l : List WSOut) : Nat :=
  l.countP WSOut.isFailureHead

/-- Number of `Null` placeholder symbols in an output log. -/
def countNullPlaceholders (l : List WSOut) : Nat :=
  l.countP WSOut.isNullSym

/-! ## Foreign buffer handles (array.hpp 31-38, matrix.hpp 33-40)

`mathematica_array<T>` / `mathematica_matrix<T>` hold the host buffer and a
deleter; handles are shared through `std::shared_ptr` (`make` returns one).
The lifecycle is modelled by the reference count together with the destructor
body, which runs when the count reaches zero. -/

structure HandleSt : Type where
  refs : Nat
  dataPresent : Bool
  deleterCalls : Nat
deriving DecidableEq

/-- `~mathematica_array` / `~mathematica_matrix`: call the bound deleter if
the data pointer is set, then clear it. -/
def handleDestructor (h : HandleSt) : HandleSt :=
  if h.dataPresent then
    { h with dataPresent := false, deleterCalls := h.deleterCalls + 1 }
  else h

inductive RefOp : Type
  | retain
  | release
deriving DecidableEq

/-- One `shared_ptr` copy or drop; dropping the last reference runs the
destructor. -/
def refStep (h : HandleSt) : RefOp → HandleSt
  | .retain => { h with refs := h.refs + 1 }
  | .release =>
    let h' := { h with refs := h.refs - 1 }
    if h'.refs = 0 then handleDestructor h' else h'

def runRefOps (h : HandleSt) (ops : List RefOp) : HandleSt :=
  ops.foldl refStep h

/-- State right after `make`: one owner, live buffer, deleter never run. -/
def initialHandle : HandleSt := ⟨1, true, 0⟩

/-- A retain (copying a live reference) or release (dropping a live
reference) is only possible while a reference is live: traces that act on a
dead handle are not representable in C++. -/
def validRefOpsFrom (r : Nat) : List RefOp → Bool
  | [] => true
  | .retain :: rest => decide (0 < r) && validRefOpsFrom (r + 1) rest
  | .release :: rest => decide (0 < r) && validRefOpsFrom (r - 1) rest

/-! ## Lemmas about `mathematica_unescape` -/

theorem unescapeGo_standard_id (src : List Nat) (h92 : 92 ∉ src) (h0 : 0 ∉ src) :
    unescapeGo .standard src = src := by
  induction src with
  | nil => rfl
  | cons c rest ih =>
    have hc92 : c ≠ 92 := fun h => h92 (h ▸ List.mem_cons_self c rest)
    have hc0 : c ≠ 0 := fun h => h0 (h ▸ List.mem_cons_self c rest)
    have ih' := ih (fun h => h92 (List.mem_cons_of_mem c h))
      (fun h => h0 (List.mem_cons_of_mem c h))
    simp [unescapeGo, hc92, hc0, ih']

theorem unescapeGo_octal (ds : List Nat) : ∀ (cnum : Nat) (rest : List Nat),
    (∀ d ∈ ds, isOctalDigit d = true) →
    (∀ c, rest.head? = some c → isOctalDigit c = false) →
    unescapeGo (.readingOctal cnum) (ds ++ rest) =
      (ds.foldl (fun acc d => acc * 8 + (d - 48)) cnum) % 256 ::
        unescapeGo .standard rest := by
  induction ds with
  | nil =>
    intro cnum rest _ hrest
    cases rest with
    | nil => simp [unescapeGo]
    | cons c rest' =>
      have hc := hrest c rfl
      simp only [isOctalDigit, Bool.and_eq_true, decide_eq_true_eq] at hc
      have hc' : ¬(48 ≤ c ∧ c ≤ 55) := by
        intro ⟨h1, h2⟩
        exact absurd (by simp [isOctalDigit, h1, h2] : isOctalDigit c = true)
          (by simpa [isOctalDigit] using hc)
      simp only [List.nil_append, List.foldl_nil]
      rw [show unescapeGo (.readingOctal cnum) (c :: rest') =
        cnum % 256 ::
          (if c = 92 then unescapeGo .readingEscape rest'
           else if c ≠ 0 then c :: unescapeGo .standard rest'
           else unescapeGo .standard rest') from by simp [unescapeGo, hc']]
      rw [show unescapeGo .standard (c :: rest') =
        (if c = 92 then unescapeGo .readingEscape rest'
         else if c ≠ 0 then c :: unescapeGo .standard rest'
         else unescapeGo .standard rest') from by simp [unescapeGo]]
  | cons d ds' ih =>
    intro cnum rest hds hrest
    have hd : isOctalDigit d = true := hds d (List.mem_cons_self d ds')
    simp only [isOctalDigit, Bool.and_eq_true, decide_eq_true_eq] at hd
    have step : unescapeGo (.readingOctal cnum) ((d :: ds') ++ rest) =
        unescapeGo (.readingOctal (cnum * 8 + (d - 48))) (ds' ++ rest) := by
      simp [unescapeGo, hd.1, hd.2]
    rw [step, ih (cnum * 8 + (d - 48)) rest
      (fun x hx => hds x (List.mem_cons_of_mem d hx)) hrest]
    simp

/-! ## Lemmas about the foreign-buffer handle lifecycle -/

theorem validRefOpsFrom_zero (ops : List RefOp) (h : validRefOpsFrom 0 ops = true) :
    ops = [] := by
  cases ops with
  | nil => rfl
  | cons op rest => cases op <;> simp [validRefOpsFrom] at h

theorem runRefOps_invariant (ops : List RefOp) : ∀ (h : HandleSt), 0 < h.refs →
    h.dataPresent = true → h.deleterCalls = 0 → validRefOpsFrom h.refs ops = true →
    ((runRefOps h ops).deleterCalls = if (runRefOps h ops).refs = 0 then 1 else 0) ∧
    ((runRefOps h ops).refs = 0 → (runRefOps h ops).dataPresent = false) := by
  induction ops with
  | nil =>
    intro h hr hd hc _
    have hne : h.refs ≠ 0 := by omega
    simp [runRefOps, hc, hd, hne]
  | cons op rest ih =>
    intro h hr hd hc hv
    cases op with
    | retain =>
      have hv' : validRefOpsFrom (h.refs + 1) rest = true := by
        simpa [validRefOpsFrom, hr] using hv
      have step : runRefOps h (.retain :: rest) = runRefOps { h with refs := h.refs + 1 } rest := by
        simp [runRefOps, refStep]
      rw [step]
      exact ih { h with refs := h.refs + 1 } (by simp) hd hc hv'
    | release =>
      have hv' : validRefOpsFrom (h.refs - 1) rest = true := by
        simpa [validRefOpsFrom, hr] using hv
      by_cases hz : h.refs - 1 = 0
      · have hrest : rest = [] := validRefOpsFrom_zero rest (hz ▸ hv')
        subst hrest
        simp [runRefOps, refStep, hz, handleDestructor, hd, hc]
      · have step : runRefOps h (.release :: rest) =
            runRefOps { h with refs := h.refs - 1 } rest := by
          simp [runRefOps, refStep, hz]
        rw [step]
        exact ih { h with refs := h.refs - 1 } (by simp; omega) hd hc hv'

/-- Claim C10: `mathematica_unescape` leaves every (NUL-free, as produced by
`WSGetString`) input with no backslash unchanged; `\n`, `\r`, `\t` become
newline, carriage return and tab; `\0` followed by octal digits becomes the
single character with that octal code; any other `\c` is kept verbatim as
backslash followed by `c`. -/
theorem claim_C10 :
    (∀ src : List Nat, 92 ∉ src → 0 ∉ src → mathematica_unescape src = src) ∧
    (∀ rest, mathematica_unescape (92 :: 110 :: rest) = 10 :: mathematica_unescape rest) ∧
    (∀ rest, mathematica_unescape (92 :: 114 :: rest) = 13 :: mathematica_unescape rest) ∧
    (∀ rest, mathematica_unescape (92 :: 116 :: rest) = 9 :: mathematica_unescape rest) ∧
    (∀ ds rest, (∀ d ∈ ds, isOctalDigit d = true) →
      (∀ c, rest.head? = some c → isOctalDigit c = false) → octVal ds < 256 →
      mathematica_unescape (92 :: 48 :: (ds ++ rest)) =
        octVal ds :: mathematica_unescape rest) ∧
    (∀ c rest, c ≠ 48 → c ≠ 110 → c ≠ 114 → c ≠ 116 →
      mathematica_unescape (92 :: c :: rest) = 92 :: c :: mathematica_unescape rest) := by
  refine ⟨unescapeGo_standard_id, ?_, ?_, ?_, ?_, ?_⟩
  · intro rest; simp [mathematica_unescape, unescapeGo]
  · intro rest; simp [mathematica_unescape, unescapeGo]
  · intro rest; simp [mathematica_unescape, unescapeGo]
  · intro ds rest hds hrest hlt
    have h1 : mathematica_unescape (92 :: 48 :: (ds ++ rest)) =
        unescapeGo (.readingOctal 0) (ds ++ rest) := by
      simp [mathematica_unescape, unescapeGo]
    simp only [octVal] at hlt
    rw [h1, unescapeGo_octal ds 0 rest hds hrest, Nat.mod_eq_of_lt hlt]
    rfl
  · intro c rest h48 h110 h114 h116
    simp [mathematica_unescape, unescapeGo, h48, h110, h114, h116]

/-- Witness for C10 at concrete inputs: a backslash-free string is unchanged
and `"\055"` decodes to the character with octal code 55 (value 45). -/
theorem claim_C10_witness :
    mathematica_unescape [97, 98] = [97, 98] ∧
    mathematica_unescape [92, 48, 53, 53] = 45 :: mathematica_unescape [] := by
  constructor
  · exact claim_C10.1 [97, 98] (by decide) (by decide)
  · have h := claim_C10.2.2.2.2.1 [53, 53] [] (by decide) (by decide) (by decide)
    simpa [octVal] using h

/-- Claim C8: for every valid lifetime trace of a foreign buffer handle
(`mathematica_array`/`mathematica_matrix` under `shared_ptr` sharing), the
bound host deleter has been invoked exactly once if and only if the last
reference has been dropped, and never before; the buffer pointer is cleared
once the deleter ran.  The handle model carries no call-session state, so the
release point is independent of any session. -/
theorem claim_C8 (ops : List RefOp) (hv : validRefOpsFrom 1 ops = true) :
    ((runRefOps initialHandle ops).deleterCalls =
      if (runRefOps initialHandle ops).refs = 0 then 1 else 0) ∧
    ((runRefOps initialHandle ops).refs = 0 →
      (runRefOps initialHandle ops).dataPresent = false) :=
  runRefOps_invariant ops initialHandle (by decide) rfl rfl hv

/-- Witness for C8: a handle copied once then dropped twice ends with zero
references and exactly one deleter invocation. -/
theorem claim_C8_witness :
    validRefOpsFrom 1 [.retain, .release, .release] = true ∧
    (runRefOps initialHandle [.retain, .release, .release]).refs = 0 ∧
    (runRefOps initialHandle [.retain, .release, .release]).deleterCalls =
      if (runRefOps initialHandle [.retain, .release, .release]).refs = 0 then 1 else 0 :=
  ⟨rfl, rfl, (claim_C8 [.retain, .release, .release] rfl).1⟩

/-! ## Inversion lemmas for the WSTP primitives -/

theorem wsCheckFunction_eq_some {head : String} {s : MathState} {n : Nat}
    {s1 : MathState} (h : wsCheckFunction head s = some (n, s1)) :
    s.peek = some (.tFunc head n) ∧ s1 = { s with pos := s.pos + 1 } := by
  unfold wsCheckFunction at h
  cases hp : s.peek with
  | none => rw [hp] at h; exact absurd h (by simp)
  | some tok =>
    rw [hp] at h
    cases tok with
    | tFunc hd k =>
      by_cases hh : hd = head
      · subst hh
        simp at h
        obtain ⟨hk, hs⟩ := h
        subst hk
        exact ⟨rfl, hs.symm⟩
      · simp [hh] at h
    | tInt m => simp at h
    | tReal x => simp at h
    | tStr str => simp at h
    | tSym name => simp at h

theorem wsGetSymbol_eq_some {s : MathState} {name : String} {s1 : MathState}
    (h : wsGetSymbol s = some (name, s1)) :
    s.peek = some (.tSym name) ∧ s1 = { s with pos := s.pos + 1 } := by
  unfold wsGetSymbol at h
  cases hp : s.peek with
  | none => rw [hp] at h; exact absurd h (by simp)
  | some tok =>
    rw [hp] at h
    cases tok with
    | tSym nm =>
      simp at h
      obtain ⟨hk, hs⟩ := h
      subst hk
      exact ⟨rfl, hs.symm⟩
    | tInt m => simp at h
    | tReal x => simp at h
    | tStr str => simp at h
    | tFunc hd k => simp at h

/-- Claim C9: a tuple read on the symbolic host whose wire value is a `List`
container of the wrong element count fails with the arity error carrying the
expected count (the tuple width) and the actual count, and no element is
read: the whole read returns the error, producing no partial tuple. -/
theorem claim_C9 (subs : List MParamReader) (idx : Nat) (name : String)
    (s : MathState) (m : Nat) (hcur : s.cursor = idx)
    (htok : s.peek = some (.tFunc "List" m)) (hm : m ≠ subs.length) :
    math_read_tuple subs idx name s =
      .err (.rt (.tupleArity subs.length m name idx)) { s with pos := s.pos + 1 } := by
  unfold math_read_tuple math_check_parameter_idx
  have hck : wsCheckFunction "List" s = some (m, { s with pos := s.pos + 1 }) := by
    unfold wsCheckFunction; rw [htok]; simp
  simp [hcur, hck, hm]

/-- Witness for C9: the spec's end-to-end scenario — a tuple of `(int, int)`
supplied as a 3-element container fails with expected=2, actual=3. -/
theorem claim_C9_witness :
    math_read_tuple [math_read_atom .aInt, math_read_atom .aInt] 0 "p"
        ⟨[.tFunc "List" 3, .tInt 1, .tInt 2, .tInt 3], 0, 0, false, [], "NS"⟩ =
      .err (.rt (.tupleArity 2 3 "p" 0))
        ⟨[.tFunc "List" 3, .tInt 1, .tInt 2, .tInt 3], 1, 0, false, [], "NS"⟩ :=
  claim_C9 [math_read_atom .aInt, math_read_atom .aInt] 0 "p"
    ⟨[.tFunc "List" 3, .tInt 1, .tInt 2, .tInt 3], 0, 0, false, [], "NS"⟩ 3
    rfl rfl (by decide)

/-- Claim C2: for every tuple shape with more than one element (the C++
specialization requires it) and every wire state in which the tuple read
succeeds on the symbolic host, the cursor after the read is the start index
plus one (in `size_t` arithmetic) and in particular is never the start index
plus the element count. -/
theorem claim_C2 (subs : List MParamReader) (idx : Nat) (name : String)
    (s : MathState) (v : OMWValue) (s' : MathState)
    (hn : 1 < subs.length) (hnW : subs.length < wordSize)
    (hok : math_read_tuple subs idx name s = .ok v s') :
    s'.cursor = (idx + 1) % wordSize ∧ s'.cursor ≠ (idx + subs.length) % wordSize := by
  unfold math_read_tuple at hok
  cases hck : math_check_parameter_idx idx name s with
  | some e => rw [hck] at hok; exact absurd hok (by simp)
  | none =>
    have hcur : s.cursor = idx := by
      by_contra hne
      simp [math_check_parameter_idx, hne] at hck
    rw [hck] at hok
    cases hF : wsCheckFunction "List" s with
    | none => rw [hF] at hok; exact absurd hok (by simp)
    | some p =>
      obtain ⟨m, s1⟩ := p
      obtain ⟨_, hs1⟩ := wsCheckFunction_eq_some hF
      rw [hF] at hok
      by_cases hm : m ≠ subs.length
      · simp [hm] at hok
      · simp only [hm, if_false] at hok
        cases hE : math_read_tuple_elems subs idx 0 name s1 with
        | err e s2 => rw [hE] at hok; exact absurd hok (by simp)
        | ok vs s2 =>
          rw [hE] at hok
          simp only [Result.ok.injEq] at hok
          have hcursor : s'.cursor = (s1.cursor + 1) % wordSize := by
            rw [← hok.2]
          have hs1c : s1.cursor = idx := by rw [hs1]; exact hcur
          refine ⟨by rw [hcursor, hs1c], ?_⟩
          rw [hcursor, hs1c]
          have hW : wordSize = 2 ^ 64 := rfl
          intro heq
          have h1 : (1 : Nat) % wordSize = 1 := Nat.mod_eq_of_lt (by rw [hW]; omega)
          have h2 : subs.length % wordSize = subs.length := Nat.mod_eq_of_lt hnW
          have hmodeq : (1 : Nat) ≡ subs.length [MOD wordSize] :=
            Nat.ModEq.add_left_cancel' idx heq
          have : (1 : Nat) = subs.length := by
            unfold Nat.ModEq at hmodeq
            rw [h1, h2] at hmodeq
            exact hmodeq
          omega

/-- Witness for C2: a two-int tuple read from `List[1, 2]` leaves the cursor
at 1 (start 0 plus one), not at 2. -/
theorem claim_C2_witness :
    (⟨[.tFunc "List" 2, .tInt 1, .tInt 2], 3, 1, false, [], "NS"⟩ : MathState).cursor =
        (0 + 1) % wordSize ∧
    (⟨[.tFunc "List" 2, .tInt 1, .tInt 2], 3, 1, false, [], "NS"⟩ : MathState).cursor ≠
        (0 + 2) % wordSize :=
  have h := claim_C2 [math_read_atom .aInt, math_read_atom .aInt] 0 "p"
    ⟨[.tFunc "List" 2, .tInt 1, .tInt 2], 0, 0, false, [], "NS"⟩
    (.vTuple [.vInt 1, .vInt 2])
    ⟨[.tFunc "List" 2, .tInt 1, .tInt 2], 3, 1, false, [], "NS"⟩
    (by decide) (by decide) rfl
  h

/-- Claim C5: optional reads.  On the symbolic host, when the index matches
the cursor and the next wire value is the `Null` symbol, the reader returns
the empty optional consuming exactly the sentinel (position plus one, cursor
plus one, no extra slot); when the next value is no symbol, or a symbol other
than `Null` (after rolling back to the mark), it delegates to the element
reader at the same index.  On the numeric host, an index at or past the end
of the argument list yields the empty optional without raising; otherwise the
read delegates at the same index. -/
theorem claim_C5 :
    (∀ (sub : MParamReader) idx name (s : MathState), s.cursor = idx →
      s.peek = some (.tSym "Null") →
      math_read_optional sub idx name s =
        .ok .vNone { s with pos := s.pos + 1, cursor := (s.cursor + 1) % wordSize }) ∧
    (∀ (sub : MParamReader) idx name (s : MathState), s.cursor = idx →
      wsGetType s ≠ some .kSym →
      math_read_optional sub idx name s = Result.mapVal .vSome (sub idx name s)) ∧
    (∀ (sub : MParamReader) idx name (s : MathState) (other : String), s.cursor = idx →
      s.peek = some (.tSym other) → other ≠ "Null" →
      math_read_optional sub idx name s = Result.mapVal .vSome (sub idx name s)) ∧
    (∀ (sub : OParamReader) idx name (so : OctState), so.args.length ≤ idx →
      oct_read_optional sub idx name so = .ok .vNone so) ∧
    (∀ (sub : OParamReader) idx name (so : OctState), idx < so.args.length →
      oct_read_optional sub idx name so = Result.mapVal .vSome (sub idx name so)) := by
  refine ⟨?_, ?_, ?_, ?_, ?_⟩
  · intro sub idx name s hcur htok
    have hty : wsGetType s = some .kSym := by simp [wsGetType, htok, WSToken.kind]
    have hsym : wsGetSymbol s = some ("Null", { s with pos := s.pos + 1 }) := by
      simp [wsGetSymbol, htok]
    simp [math_read_optional, math_check_parameter_idx, hcur, hty, hsym]
  · intro sub idx name s hcur hty
    simp [math_read_optional, math_check_parameter_idx, hcur, hty]
  · intro sub idx name s other hcur htok hother
    have hty : wsGetType s = some .kSym := by simp [wsGetType, htok, WSToken.kind]
    have hsym : wsGetSymbol s = some (other, { s with pos := s.pos + 1 }) := by
      simp [wsGetSymbol, htok]
    simp only [math_read_optional, math_check_parameter_idx, hcur, hty, hsym, hother,
      ite_true, ite_false, if_pos, ne_eq, not_true_eq_false, Bool.false_eq_true]
    rw [← hcur]
  · intro sub idx name so hlen
    simp [oct_read_optional, hlen]
  · intro sub idx name so hlen
    simp [oct_read_optional, Nat.not_le_of_lt hlen, Nat.not_le.mpr hlen]

/-- Witness for C5: reading `optional<int>` at index 0 from a link holding
the `Null` symbol returns the empty optional and advances the cursor to 1;
on the numeric host with no arguments it returns empty without raising. -/
theorem claim_C5_witness :
    math_read_optional (math_read_atom .aInt) 0 "p"
        ⟨[.tSym "Null"], 0, 0, false, [], "NS"⟩ =
      .ok .vNone ⟨[.tSym "Null"], 1, 1, false, [], "NS"⟩ ∧
    oct_read_optional (oct_read_atom .aInt) 0 "p" ⟨[], [], []⟩ =
      .ok .vNone ⟨[], [], []⟩ := by
  constructor
  · have h := claim_C5.1 (math_read_atom .aInt) 0 "p"
      ⟨[.tSym "Null"], 0, 0, false, [], "NS"⟩ rfl rfl
    simpa using h
  · exact claim_C5.2.2.2.1 (oct_read_atom .aInt) 0 "p" ⟨[], [], []⟩ (by decide)

/-- Counterexample to C7 as stated: a type-test read does raise when the
requested index fails the index check.  `is_type` for `int` requested at
index 1 while the cursor is 0 throws the out-of-order `ProtocolError` from
`check_parameter_idx` instead of reporting through its flag. -/
theorem claim_C7_counterexample :
    math_is_type_atom .aInt 1 "p" ⟨[.tInt 5], 0, 0, false, [], "NS"⟩ =
      .err (.rt (.protocolError "p" 1 0)) ⟨[.tInt 5], 0, 0, false, [], "NS"⟩ := rfl

/-- Claim C7 (amended): provided the requested index passes the host's index
check (equals the cursor on the symbolic host; within the argument list on
the numeric host), a type-test-mode read never raises: it reports success or
failure only through its flag and leaves the wrapper state — cursor and
transport position included — unchanged. -/
theorem claim_C7_amended :
    (∀ (a : PAtom) idx name (s : MathState), s.cursor = idx →
      ∃ b, math_is_type_atom a idx name s = .ok b s) ∧
    (∀ (a : PAtom) idx name (so : OctState), idx < so.args.length →
      ∃ b, oct_is_type_atom a idx name so = .ok b so) := by
  constructor
  · intro a idx name s hcur
    have hck : math_check_parameter_idx idx name s = none := by
      simp [math_check_parameter_idx, hcur]
    cases a
    case aBool =>
      cases hsym : wsGetSymbol s with
      | none =>
        exact ⟨false, by
          simp [math_is_type_atom, runIsType, math_atom_try_read, math_try_read_bool,
            hck, hsym]⟩
      | some p =>
        obtain ⟨sym, s1⟩ := p
        obtain ⟨_, hs1⟩ := wsGetSymbol_eq_some hsym
        refine ⟨sym = "True" || sym = "False", ?_⟩
        simp only [math_is_type_atom, runIsType, math_atom_try_read, math_try_read_bool,
          hck, hsym]
        rw [hs1]
        simp
    case aInt =>
      exact ⟨decide (wsGetType s = some .kInt), by
        simp [math_is_type_atom, runIsType, math_atom_try_read, math_try_read_int, hck]⟩
    case aUInt =>
      exact ⟨decide (wsGetType s = some .kInt), by
        simp [math_is_type_atom, runIsType, math_atom_try_read, math_try_read_uint, hck]⟩
    case aFloat =>
      exact ⟨decide (wsGetType s = some .kReal), by
        simp [math_is_type_atom, runIsType, math_atom_try_read, math_try_read_float, hck]⟩
    case aStr =>
      exact ⟨decide (wsGetType s = some .kStr), by
        simp [math_is_type_atom, runIsType, math_atom_try_read, math_try_read_string, hck]⟩
  · intro a idx name so hlen
    have hck : oct_check_parameter_idx idx name so = none := by
      simp [oct_check_parameter_idx, Nat.not_le.mpr hlen]
    cases a
    case aBool =>
      by_cases hb : (so.arg idx).isBoolType
      · exact ⟨true, by simp [oct_is_type_atom, runIsType, oct_atom_try_read,
          oct_try_read_bool, hck, hb]⟩
      · exact ⟨false, by simp [oct_is_type_atom, runIsType, oct_atom_try_read,
          oct_try_read_bool, hck, hb]⟩
    case aInt =>
      by_cases hb : (so.arg idx).isScalarType
      · exact ⟨true, by simp [oct_is_type_atom, runIsType, oct_atom_try_read,
          oct_try_read_int, hck, hb]⟩
      · exact ⟨false, by simp [oct_is_type_atom, runIsType, oct_atom_try_read,
          oct_try_read_int, hck, hb]⟩
    case aUInt =>
      by_cases hb : (so.arg idx).isScalarType
      · exact ⟨true, by simp [oct_is_type_atom, runIsType, oct_atom_try_read,
          oct_try_read_uint, hck, hb]⟩
      · exact ⟨false, by simp [oct_is_type_atom, runIsType, oct_atom_try_read,
          oct_try_read_uint, hck, hb]⟩
    case aFloat =>
      by_cases hb : (so.arg idx).isNumericType
      · exact ⟨true, by simp [oct_is_type_atom, runIsType, oct_atom_try_read,
          oct_try_read_float, hck, hb]⟩
      · exact ⟨false, by simp [oct_is_type_atom, runIsType, oct_atom_try_read,
          oct_try_read_float, hck, hb]⟩
    case aStr =>
      by_cases hb : (so.arg idx).isString
      · exact ⟨true, by simp [oct_is_type_atom, runIsType, oct_atom_try_read,
          oct_try_read_string, hck, hb]⟩
      · exact ⟨false, by simp [oct_is_type_atom, runIsType, oct_atom_try_read,
          oct_try_read_string, hck, hb]⟩

/-- Witness for the amended C7: a type test at the matching index succeeds
without raising and without touching the state, on both hosts. -/
theorem claim_C7_witness :
    (∃ b, math_is_type_atom .aInt 0 "p" ⟨[.tInt 5], 0, 0, false, [], "NS"⟩ =
      .ok b ⟨[.tInt 5], 0, 0, false, [], "NS"⟩) ∧
    (∃ b, oct_is_type_atom .aInt 0 "p" ⟨[.oNum 5], [], []⟩ =
      .ok b ⟨[.oNum 5], [], []⟩) :=
  ⟨claim_C7_amended.1 .aInt 0 "p" ⟨[.tInt 5], 0, 0, false, [], "NS"⟩ rfl,
   claim_C7_amended.2 .aInt 0 "p" ⟨[.oNum 5], [], []⟩ (by decide)⟩

theorem math_atom_try_read_wrong_idx (a : PAtom) (idx : Nat) (name : String)
    (s : MathState) (g : Bool) (h : idx ≠ s.cursor) :
    math_atom_try_read a idx name s g =
      .err (.rt (.protocolError name idx s.cursor)) s := by
  have hck : math_check_parameter_idx idx name s =
      some (.protocolError name idx s.cursor) := by
    unfold math_check_parameter_idx
    rw [if_pos (Ne.symm h)]
  cases a <;>
    simp [math_atom_try_read, math_try_read_bool, math_try_read_int,
      math_try_read_uint, math_try_read_float, math_try_read_string, hck]

/-- Counterexample to C4 as stated: on the numeric host there is no cursor.
In a fresh two-argument call whose first unconsumed parameter is index 0,
requesting index 1 succeeds (no `ProtocolError`), because
`octave::check_parameter_idx` only bounds-checks the index. -/
theorem claim_C4_counterexample :
    oct_read_atom .aInt 1 "p" ⟨[.oNum 5, .oNum 7], [], []⟩ =
      .ok (.vInt 7) ⟨[.oNum 5, .oNum 7], [], []⟩ := rfl

/-- Claim C4 (amended): on the symbolic host, every parameter read (any
well-formed shape) at an index different from the cursor fails with the
out-of-order `ProtocolError` and leaves the whole state — transport position
and cursor included — unchanged.  On the numeric host the index check is only
a bounds check: a read at an index at or past the end of the argument list
fails with the not-enough-parameters error and leaves the state unchanged,
while in-range out-of-order indices are accepted. -/
theorem claim_C4_amended :
    (∀ (shp : PShape) idx name (s : MathState), shp.wf = true → idx ≠ s.cursor →
      math_read_shape shp idx name s =
        .err (.rt (.protocolError name idx s.cursor)) s) ∧
    (∀ (a : PAtom) idx name (so : OctState), so.args.length ≤ idx →
      oct_read_atom a idx name so =
        .err (.rt (.notEnoughParameters name idx)) so) := by
  constructor
  · intro shp idx name s hwf hne
    have hck : math_check_parameter_idx idx name s =
        some (.protocolError name idx s.cursor) := by
      unfold math_check_parameter_idx
      rw [if_pos (Ne.symm hne)]
    cases shp with
    | atom a =>
      simp [math_read_shape, math_read_atom, runRead,
        math_atom_try_read_wrong_idx a idx name s true hne]
    | opt t => simp [math_read_shape, math_read_optional, hck]
    | tuple ts => simp [math_read_shape, math_read_tuple, hck]
    | variant alts =>
      have halts : alts ≠ [] := by simpa [PShape.wf] using hwf
      cases alts with
      | nil => exact absurd rfl halts
      | cons a rest =>
        cases rest with
        | nil =>
          simp [math_read_shape, read_variant, read_variant_go, mkMathAlt,
            math_is_type_atom, runIsType,
            math_atom_try_read_wrong_idx a idx name s false hne]
        | cons b r =>
          simp [math_read_shape, read_variant, read_variant_go, mkMathAlt,
            math_is_type_atom, runIsType,
            math_atom_try_read_wrong_idx a idx name s false hne]
  · intro a idx name so hlen
    have hck : oct_check_parameter_idx idx name so =
        some (.notEnoughParameters name idx) := by
      unfold oct_check_parameter_idx
      rw [if_pos hlen]
    cases a <;>
      simp [oct_read_atom, runRead, oct_atom_try_read, oct_try_read_bool,
        oct_try_read_int, oct_try_read_uint, oct_try_read_float,
        oct_try_read_string, hck]

/-- Witness for the amended C4: an out-of-order read on the symbolic host
fails before consuming anything; an out-of-range read on the numeric host
fails with the bounds error. -/
theorem claim_C4_witness :
    math_read_shape (.atom .aInt) 1 "p" ⟨[.tInt 5], 0, 0, false, [], "NS"⟩ =
      .err (.rt (.protocolError "p" 1 0)) ⟨[.tInt 5], 0, 0, false, [], "NS"⟩ ∧
    oct_read_atom .aInt 5 "p" ⟨[], [], []⟩ =
      .err (.rt (.notEnoughParameters "p" 5)) ⟨[], [], []⟩ :=
  ⟨claim_C4_amended.1 (.atom .aInt) 1 "p" ⟨[.tInt 5], 0, 0, false, [], "NS"⟩
      rfl (by decide),
   claim_C4_amended.2 .aInt 5 "p" ⟨[], [], []⟩ (by decide)⟩

/-! ## Lemmas about the variant reader -/

theorem read_variant_go_first {σ : Type} :
    ∀ (alts : List (AltReader σ)) (t k : Nat) (ak : AltReader σ) (idx : Nat)
      (name : String) (st : σ),
      alts[k]? = some ak →
      (∀ (j : Nat) (aj : AltReader σ), j < k → alts[j]? = some aj →
        aj.isType idx name st = .ok false st) →
      ak.isType idx name st = .ok true st →
      read_variant_go alts t idx name st =
        Result.mapVal (.vVariant (t + k)) (ak.read idx name st) := by
  intro alts
  induction alts with
  | nil => intro t k ak idx name st hk; simp at hk
  | cons a tail ih =>
    intro t k ak idx name st hk hprev hak
    cases k with
    | zero =>
      simp at hk
      subst hk
      cases tail with
      | nil => simp [read_variant_go, hak]
      | cons b r => simp [read_variant_go, hak]
    | succ k' =>
      have ha0 : a.isType idx name st = .ok false st :=
        hprev 0 a (Nat.succ_pos k') (by simp)
      have hk' : tail[k']? = some ak := by simpa using hk
      cases tail with
      | nil => simp at hk'
      | cons b r =>
        have hrec := ih (t + 1) k' ak idx name st hk'
          (fun j (aj : AltReader σ) hj hja =>
            hprev (j + 1) aj (Nat.succ_lt_succ hj) (by simpa using hja))
          hak
        have harith : t + 1 + k' = t + (k' + 1) := by omega
        rw [harith] at hrec
        rw [show read_variant_go (a :: b :: r) t idx name st =
            read_variant_go (b :: r) (t + 1) idx name st from by
          simp [read_variant_go, ha0]]
        exact hrec

theorem read_variant_go_none {σ : Type} :
    ∀ (alts : List (AltReader σ)) (t idx : Nat) (name : String) (st : σ),
      (∀ (j : Nat) (aj : AltReader σ), alts[j]? = some aj →
        aj.isType idx name st = .ok false st) →
      read_variant_go alts t idx name st =
        .err (.rt (.variantNoMatch name idx)) st := by
  intro alts
  induction alts with
  | nil => intro t idx name st _; rfl
  | cons a tail ih =>
    intro t idx name st hall
    have ha0 : a.isType idx name st = .ok false st := hall 0 a (by simp)
    cases tail with
    | nil => simp [read_variant_go, ha0]
    | cons b r =>
      rw [show read_variant_go (a :: b :: r) t idx name st =
          read_variant_go (b :: r) (t + 1) idx name st from by
        simp [read_variant_go, ha0]]
      exact ih (t + 1) idx name st
        (fun j (aj : AltReader σ) hja => hall (j + 1) aj (by simpa using hja))

/-- Claim C3: the variant reader tries the alternatives in declaration order
(using state-preserving type tests), commits the first alternative whose type
test succeeds — tagging the result with that alternative's position — and
raises the no-matching-alternative error when every test fails.  In
particular, for an integer wire value matching both `int`'s and
`unsigned int`'s type tests with alternatives `[int, unsigned int]`, the
result is always tagged with the first alternative. -/
theorem claim_C3 :
    (∀ (σ : Type) (alts : List (AltReader σ)) (k : Nat) (ak : AltReader σ)
      (idx : Nat) (name : String) (st : σ),
      alts[k]? = some ak →
      (∀ (j : Nat) (aj : AltReader σ), j < k → alts[j]? = some aj →
        aj.isType idx name st = .ok false st) →
      ak.isType idx name st = .ok true st →
      read_variant alts idx name st =
        Result.mapVal (.vVariant k) (ak.read idx name st)) ∧
    (∀ (σ : Type) (alts : List (AltReader σ)) (idx : Nat) (name : String) (st : σ),
      alts ≠ [] →
      (∀ (j : Nat) (aj : AltReader σ), alts[j]? = some aj →
        aj.isType idx name st = .ok false st) →
      read_variant alts idx name st = .err (.rt (.variantNoMatch name idx)) st) ∧
    (read_variant [mkMathAlt .aInt, mkMathAlt .aUInt] 0 "p"
        ⟨[.tInt 5], 0, 0, false, [], "NS"⟩ =
      .ok (.vVariant 0 (.vInt 5)) ⟨[.tInt 5], 1, 1, false, [], "NS"⟩) := by
  refine ⟨?_, ?_, rfl⟩
  · intro σ alts k ak idx name st hk hprev hak
    have h := read_variant_go_first alts 0 k ak idx name st hk hprev hak
    simpa [read_variant] using h
  · intro σ alts idx name st _ hall
    exact read_variant_go_none alts 0 idx name st hall

/-- Witness for C3: with alternatives `[bool, int]` and an integer wire
value, the `bool` test fails and the `int` alternative is committed with
tag 1. -/
theorem claim_C3_witness :
    read_variant [mkMathAlt .aBool, mkMathAlt .aInt] 0 "p"
        ⟨[.tInt 5], 0, 0, false, [], "NS"⟩ =
      Result.mapVal (.vVariant 1)
        (math_read_atom .aInt 0 "p" ⟨[.tInt 5], 0, 0, false, [], "NS"⟩) := by
  refine claim_C3.1 MathState [mkMathAlt .aBool, mkMathAlt .aInt] 1 (mkMathAlt .aInt)
    0 "p" ⟨[.tInt 5], 0, 0, false, [], "NS"⟩ rfl ?_ rfl
  intro j aj hj hja
  have hj0 : j = 0 := by omega
  subst hj0
  simp at hja
  subst hja
  rfl

/-- Counterexample to C6 as stated: `octave::run_function` catches only
`std::runtime_error`, so a user function raising any other `std::exception`
(here one with `what() = "std::bad_alloc"`) escapes `run_function` to the
host runtime instead of being converted to a failure signal. -/
theorem claim_C6_counterexample :
    oct_run_function (fun st => .err (.stdExn "std::bad_alloc") st) [] ⟨[], [], []⟩ =
      .err (.stdExn "std::bad_alloc") ⟨[], [], []⟩ := rfl

/-- Claim C6 (amended): every `std::runtime_error` — the class of every error
the library itself raises — thrown during the user function body is caught by
the call-session controller on both hosts and converted to the host-native
failure signal (the evaluate-packet/`$Failed` sequence on the symbolic host,
a diagnostic line on the numeric host), never re-thrown.  The Mathematica
controller additionally catches any other `std::exception`.  Exceptions
outside the host's catch clause (non-`std::exception` on the symbolic host,
non-`std::runtime_error` on the numeric host) propagate. -/
theorem claim_C6_amended :
    (∀ (fn : MathState → Result MathState Unit) (s : MathState) (e : MathError)
      (s1 : MathState), fn (mathSessionInit s) = .err (.rt e) s1 →
      math_run_function fn s =
        .ok true { math_send_failure e.message "err" s1 with cursor := closedSentinel }) ∧
    (∀ (fn : MathState → Result MathState Unit) (s : MathState) (w : String)
      (s1 : MathState), fn (mathSessionInit s) = .err (.stdExn w) s1 →
      math_run_function fn s =
        .ok true { math_send_failure w "err" s1 with cursor := closedSentinel }) ∧
    (∀ (fn : OctState → Result OctState Unit) (args : List OctValue) (s : OctState)
      (e : MathError) (s1 : OctState),
      fn { s with args := args, results := [] } = .err (.rt e) s1 →
      oct_run_function fn args s = .ok [] (oct_send_failure e.message "err" s1)) := by
  refine ⟨?_, ?_, ?_⟩
  · intro fn s e s1 h
    simp [math_run_function, h, Exn.what]
  · intro fn s w s1 h
    simp [math_run_function, h, Exn.what]
  · intro fn args s e s1 h
    simp [oct_run_function, h]

/-- Witness for the amended C6: a user function throwing a
`std::runtime_error` is caught and converted on both hosts. -/
theorem claim_C6_witness :
    math_run_function (fun st => .err (.rt (.userError "boom")) st)
        ⟨[], 0, 7, true, [], "NS"⟩ =
      .ok true
        { math_send_failure (MathError.userError "boom").message "err"
            (mathSessionInit ⟨[], 0, 7, true, [], "NS"⟩) with cursor := closedSentinel } ∧
    oct_run_function (fun st => .err (.rt (.userError "boom")) st) [] ⟨[], [], []⟩ =
      .ok [] (oct_send_failure (MathError.userError "boom").message "err"
        ⟨[], [], []⟩) :=
  ⟨claim_C6_amended.1 (fun st => .err (.rt (.userError "boom")) st)
      ⟨[], 0, 7, true, [], "NS"⟩ (.userError "boom") _ rfl,
   claim_C6_amended.2.2 (fun st => .err (.rt (.userError "boom")) st) [] ⟨[], [], []⟩
      (.userError "boom") _ rfl⟩

/-! ## Readers do not touch the result flag, the output log or the namespace,
and only raise `std::runtime_error` payloads -/

theorem wsGetInteger32_eq_some {s : MathState} {n : Int} {s1 : MathState}
    (h : wsGetInteger32 s = some (n, s1)) : s1 = { s with pos := s.pos + 1 } := by
  unfold wsGetInteger32 at h
  cases hp : s.peek with
  | none => rw [hp] at h; exact absurd h (by simp)
  | some tok =>
    rw [hp] at h
    cases tok with
    | tInt m =>
      by_cases hr : int32Min ≤ m ∧ m < int32Max
      · simp [hr] at h; exact h.2.symm
      · simp [hr] at h
    | tReal x => simp at h
    | tStr str => simp at h
    | tSym nm => simp at h
    | tFunc hd k => simp at h

theorem wsGetInteger64_eq_some {s : MathState} {n : Int} {s1 : MathState}
    (h : wsGetInteger64 s = some (n, s1)) : s1 = { s with pos := s.pos + 1 } := by
  unfold wsGetInteger64 at h
  cases hp : s.peek with
  | none => rw [hp] at h; exact absurd h (by simp)
  | some tok =>
    rw [hp] at h
    cases tok with
    | tInt m =>
      by_cases hr : int64Min ≤ m ∧ m < int64Max
      · simp [hr] at h; exact h.2.symm
      · simp [hr] at h
    | tReal x => simp at h
    | tStr str => simp at h
    | tSym nm => simp at h
    | tFunc hd k => simp at h

theorem wsGetReal32_eq_some {s : MathState} {x : Int} {s1 : MathState}
    (h : wsGetReal32 s = some (x, s1)) : s1 = { s with pos := s.pos + 1 } := by
  unfold wsGetReal32 at h
  cases hp : s.peek with
  | none => rw [hp] at h; exact absurd h (by simp)
  | some tok =>
    rw [hp] at h
    cases tok with
    | tReal y => simp at h; exact h.2.symm
    | tInt m => simp at h
    | tStr str => simp at h
    | tSym nm => simp at h
    | tFunc hd k => simp at h

theorem wsGetString_eq_some {s : MathState} {str : List Nat} {s1 : MathState}
    (h : wsGetString s = some (str, s1)) : s1 = { s with pos := s.pos + 1 } := by
  unfold wsGetString at h
  cases hp : s.peek with
  | none => rw [hp] at h; exact absurd h (by simp)
  | some tok =>
    rw [hp] at h
    cases tok with
    | tStr t => simp at h; exact h.2.symm
    | tInt m => simp at h
    | tReal x => simp at h
    | tSym nm => simp at h
    | tFunc hd k => simp at h

/-- A reader outcome is tame relative to its input state when it left
`has_result_`, the output log and the namespace untouched, and any exception
it raised is a `std::runtime_error`. -/
def ReaderTame {α : Type} (r : Result MathState α) (s : MathState) : Prop :=
  (r.state.hasResult = s.hasResult ∧ r.state.out = s.out ∧ r.state.ns = s.ns) ∧
  (∀ e st, r = .err e st → ∃ me, e = .rt me)

theorem ReaderTame.mapVal {α β : Type} {r : Result MathState α} {s : MathState}
    (f : α → β) (h : ReaderTame r s) : ReaderTame (Result.mapVal f r) s := by
  obtain ⟨hfields, herr⟩ := h
  cases r with
  | ok a st => exact ⟨hfields, by intro e st' he; simp [Result.mapVal] at he⟩
  | err e st =>
    refine ⟨hfields, ?_⟩
    intro e' st' he
    simp [Result.mapVal] at he
    exact he.1 ▸ herr e st rfl

theorem ReaderTame.of_ok_fields {α : Type} {a : α} {st s : MathState}
    (h1 : st.hasResult = s.hasResult) (h2 : st.out = s.out) (h3 : st.ns = s.ns) :
    ReaderTame (.ok a st) s :=
  ⟨⟨h1, h2, h3⟩, by intro e st' h; simp at h⟩

theorem ReaderTame.of_err_rt {α : Type} {me : MathError} {st s : MathState}
    (h1 : st.hasResult = s.hasResult) (h2 : st.out = s.out) (h3 : st.ns = s.ns) :
    ReaderTame (α := α) (.err (.rt me) st) s :=
  ⟨⟨h1, h2, h3⟩, by intro e st' h; simp at h; exact ⟨me, h.1.symm⟩⟩

theorem math_atom_try_read_tame (a : PAtom) (idx : Nat) (name : String)
    (s : MathState) (g : Bool) : ReaderTame (math_atom_try_read a idx name s g) s := by
  cases a
  case aBool =>
    unfold math_atom_try_read math_try_read_bool
    cases hck : math_check_parameter_idx idx name s with
    | some e =>
      simp only [hck]
      exact ReaderTame.of_err_rt rfl rfl rfl
    | none =>
      simp only [hck]
      cases hsym : wsGetSymbol s with
      | none =>
        simp only [hsym]
        exact ReaderTame.of_ok_fields rfl rfl rfl
      | some p =>
        obtain ⟨sym, s1⟩ := p
        obtain ⟨_, hs1⟩ := wsGetSymbol_eq_some hsym
        subst hs1
        simp only [hsym]
        apply ReaderTame.of_ok_fields <;> (split <;> split <;> rfl)
  case aInt =>
    unfold math_atom_try_read math_try_read_int
    cases hck : math_check_parameter_idx idx name s with
    | some e =>
      simp only [hck]
      exact ReaderTame.of_err_rt rfl rfl rfl
    | none =>
      simp only [hck]
      cases g with
      | false => exact ReaderTame.of_ok_fields rfl rfl rfl
      | true =>
        cases hget : wsGetInteger32 s with
        | none =>
          simp only [hget]
          exact ReaderTame.of_ok_fields rfl rfl rfl
        | some p =>
          obtain ⟨n, s1⟩ := p
          have hs1 := wsGetInteger32_eq_some hget
          subst hs1
          simp only [hget]
          exact ReaderTame.of_ok_fields rfl rfl rfl
  case aUInt =>
    unfold math_atom_try_read math_try_read_uint
    cases hck : math_check_parameter_idx idx name s with
    | some e =>
      simp only [hck]
      exact ReaderTame.of_err_rt rfl rfl rfl
    | none =>
      simp only [hck]
      cases g with
      | false => exact ReaderTame.of_ok_fields rfl rfl rfl
      | true =>
        cases hget : wsGetInteger64 s with
        | none =>
          simp only [hget]
          exact ReaderTame.of_ok_fields rfl rfl rfl
        | some p =>
          obtain ⟨n, s1⟩ := p
          have hs1 := wsGetInteger64_eq_some hget
          subst hs1
          simp only [hget]
          exact ReaderTame.of_ok_fields rfl rfl rfl
  case aFloat =>
    unfold math_atom_try_read math_try_read_float
    cases hck : math_check_parameter_idx idx name s with
    | some e =>
      simp only [hck]
      exact ReaderTame.of_err_rt rfl rfl rfl
    | none =>
      simp only [hck]
      cases g with
      | false => exact ReaderTame.of_ok_fields rfl rfl rfl
      | true =>
        cases hget : wsGetReal32 s with
        | none =>
          simp only [hget]
          exact ReaderTame.of_ok_fields rfl rfl rfl
        | some p =>
          obtain ⟨x, s1⟩ := p
          have hs1 := wsGetReal32_eq_some hget
          subst hs1
          simp only [hget]
          exact ReaderTame.of_ok_fields rfl rfl rfl
  case aStr =>
    unfold math_atom_try_read math_try_read_string
    cases hck : math_check_parameter_idx idx name s with
    | some e =>
      simp only [hck]
      exact ReaderTame.of_err_rt rfl rfl rfl
    | none =>
      simp only [hck]
      cases g with
      | false => exact ReaderTame.of_ok_fields rfl rfl rfl
      | true =>
        cases hget : wsGetString s with
        | none =>
          simp only [hget]
          exact ReaderTame.of_ok_fields rfl rfl rfl
        | some p =>
          obtain ⟨str, s1⟩ := p
          have hs1 := wsGetString_eq_some hget
          subst hs1
          simp only [hget]
          exact ReaderTame.of_ok_fields rfl rfl rfl

theorem runRead_tame {tr : Nat → String → MathState → Bool → Result MathState (OMWValue × Bool)}
    (htr : ∀ idx name s g, ReaderTame (tr idx name s g) s)
    (idx : Nat) (name : String) (s : MathState) :
    ReaderTame (runRead tr idx name s) s := by
  unfold runRead
  have h := htr idx name s true
  cases hres : tr idx name s true with
  | ok p st =>
    obtain ⟨v, succ⟩ := p
    rw [hres] at h
    obtain ⟨hfields, _⟩ := h
    cases succ with
    | true => exact ReaderTame.of_ok_fields hfields.1 hfields.2.1 hfields.2.2
    | false => exact ReaderTame.of_err_rt hfields.1 hfields.2.1 hfields.2.2
  | err e st =>
    rw [hres] at h
    obtain ⟨hfields, herr⟩ := h
    obtain ⟨me, hme⟩ := herr e st rfl
    subst hme
    exact ReaderTame.of_err_rt hfields.1 hfields.2.1 hfields.2.2

theorem runIsType_tame {tr : Nat → String → MathState → Bool → Result MathState (OMWValue × Bool)}
    (htr : ∀ idx name s g, ReaderTame (tr idx name s g) s)
    (idx : Nat) (name : String) (s : MathState) :
    ReaderTame (runIsType tr idx name s) s := by
  unfold runIsType
  have h := htr idx name s false
  cases hres : tr idx name s false with
  | ok p st =>
    obtain ⟨v, succ⟩ := p
    rw [hres] at h
    obtain ⟨hfields, _⟩ := h
    exact ReaderTame.of_ok_fields hfields.1 hfields.2.1 hfields.2.2
  | err e st =>
    rw [hres] at h
    obtain ⟨hfields, herr⟩ := h
    obtain ⟨me, hme⟩ := herr e st rfl
    subst hme
    exact ReaderTame.of_err_rt hfields.1 hfields.2.1 hfields.2.2

theorem math_read_atom_tame (a : PAtom) (idx : Nat) (name : String) (s : MathState) :
    ReaderTame (math_read_atom a idx name s) s :=
  runRead_tame (math_atom_try_read_tame a) idx name s

theorem math_is_type_atom_tame (a : PAtom) (idx : Nat) (name : String) (s : MathState) :
    ReaderTame (math_is_type_atom a idx name s) s :=
  runIsType_tame (math_atom_try_read_tame a) idx name s

theorem math_read_optional_tame {sub : MParamReader}
    (hsub : ∀ idx name s, ReaderTame (sub idx name s) s)
    (idx : Nat) (name : String) (s : MathState) :
    ReaderTame (math_read_optional sub idx name s) s := by
  unfold math_read_optional
  cases hck : math_check_parameter_idx idx name s with
  | some e =>
    simp only [hck]
    exact ReaderTame.of_err_rt rfl rfl rfl
  | none =>
    simp only [hck]
    by_cases hty : wsGetType s = some .kSym
    · simp only [hty, if_pos rfl]
      cases hsym : wsGetSymbol s with
      | none =>
        simp only [hsym]
        exact ReaderTame.of_err_rt rfl rfl rfl
      | some p =>
        obtain ⟨sym, s1⟩ := p
        obtain ⟨_, hs1⟩ := wsGetSymbol_eq_some hsym
        subst hs1
        simp only [hsym]
        by_cases hnull : sym = "Null"
        · simp only [hnull, if_pos rfl]
          exact ReaderTame.of_ok_fields rfl rfl rfl
        · simp only [if_neg hnull]
          exact ReaderTame.mapVal _ (hsub idx name _)
    · simp only [if_neg hty]
      exact ReaderTame.mapVal _ (hsub idx name s)

theorem math_read_tuple_elems_tame :
    ∀ (subs : List MParamReader)
      (_ : ∀ r ∈ subs, ∀ idx name s, ReaderTame (r idx name s) s)
      (base k : Nat) (name : String) (s : MathState),
      ReaderTame (math_read_tuple_elems subs base k name s) s := by
  intro subs
  induction subs with
  | nil =>
    intro _ base k name s
    exact ReaderTame.of_ok_fields rfl rfl rfl
  | cons r rs ih =>
    intro hall base k name s
    have hr := hall r (List.mem_cons_self r rs) (base + k) name s
    unfold math_read_tuple_elems
    cases hres : r (base + k) name s with
    | err e s' =>
      rw [hres] at hr
      obtain ⟨hfields, herr⟩ := hr
      obtain ⟨me, hme⟩ := herr e s' rfl
      subst hme
      exact ReaderTame.of_err_rt hfields.1 hfields.2.1 hfields.2.2
    | ok v s' =>
      rw [hres] at hr
      obtain ⟨hfields, _⟩ := hr
      have hrest := ih (fun r' hr' => hall r' (List.mem_cons_of_mem r hr')) base (k + 1) name s'
      cases hrest2 : math_read_tuple_elems rs base (k + 1) name s' with
      | err e s'' =>
        rw [hrest2] at hrest
        obtain ⟨hfields2, herr2⟩ := hrest
        obtain ⟨me, hme⟩ := herr2 e s'' rfl
        subst hme
        simp only [hrest2]
        exact ReaderTame.of_err_rt (hfields2.1.trans hfields.1)
          (hfields2.2.1.trans hfields.2.1) (hfields2.2.2.trans hfields.2.2)
      | ok vs s'' =>
        rw [hrest2] at hrest
        obtain ⟨hfields2, _⟩ := hrest
        simp only [hrest2]
        exact ReaderTame.of_ok_fields (hfields2.1.trans hfields.1)
          (hfields2.2.1.trans hfields.2.1) (hfields2.2.2.trans hfields.2.2)

theorem math_read_tuple_tame {subs : List MParamReader}
    (hall : ∀ r ∈ subs, ∀ idx name s, ReaderTame (r idx name s) s)
    (idx : Nat) (name : String) (s : MathState) :
    ReaderTame (math_read_tuple subs idx name s) s := by
  unfold math_read_tuple
  cases hck : math_check_parameter_idx idx name s with
  | some e =>
    simp only [hck]
    exact ReaderTame.of_err_rt rfl rfl rfl
  | none =>
    simp only [hck]
    cases hF : wsCheckFunction "List" s with
    | none =>
      simp only [hF]
      exact ReaderTame.of_err_rt rfl rfl rfl
    | some p =>
      obtain ⟨m, s1⟩ := p
      obtain ⟨_, hs1⟩ := wsCheckFunction_eq_some hF
      subst hs1
      simp only [hF]
      by_cases hm : m ≠ subs.length
      · simp only [if_pos hm]
        exact ReaderTame.of_err_rt rfl rfl rfl
      · simp only [if_neg hm]
        have helems := math_read_tuple_elems_tame subs hall idx 0 name
          { s with pos := s.pos + 1 }
        cases hE : math_read_tuple_elems subs idx 0 name { s with pos := s.pos + 1 } with
        | err e s2 =>
          rw [hE] at helems
          obtain ⟨hfields, herr⟩ := helems
          obtain ⟨me, hme⟩ := herr e s2 rfl
          subst hme
          exact ReaderTame.of_err_rt hfields.1 hfields.2.1 hfields.2.2
        | ok vs s2 =>
          rw [hE] at helems
          obtain ⟨hfields, _⟩ := helems
          exact ReaderTame.of_ok_fields hfields.1 hfields.2.1 hfields.2.2

theorem read_variant_go_tame :
    ∀ (alts : List (AltReader MathState))
      (_ : ∀ al ∈ alts, (∀ idx name s, ReaderTame (al.isType idx name s) s) ∧
        (∀ idx name s, ReaderTame (al.read idx name s) s))
      (t idx : Nat) (name : String) (s : MathState),
      ReaderTame (read_variant_go alts t idx name s) s := by
  intro alts
  induction alts with
  | nil =>
    intro _ t idx name s
    exact ReaderTame.of_err_rt rfl rfl rfl
  | cons a tail ih =>
    intro hall t idx name s
    have ha := hall a (List.mem_cons_self a tail)
    have hit := ha.1 idx name s
    cases tail with
    | nil =>
      unfold read_variant_go
      cases hres : a.isType idx name s with
      | err e s' =>
        rw [hres] at hit
        obtain ⟨hfields, herr⟩ := hit
        obtain ⟨me, hme⟩ := herr e s' rfl
        subst hme
        exact ReaderTame.of_err_rt hfields.1 hfields.2.1 hfields.2.2
      | ok b s' =>
        rw [hres] at hit
        obtain ⟨hfields, _⟩ := hit
        cases b with
        | false => exact ReaderTame.of_err_rt hfields.1 hfields.2.1 hfields.2.2
        | true =>
          have hread := ha.2 idx name s'
          cases hread2 : a.read idx name s' with
          | err e s'' =>
            rw [hread2] at hread
            obtain ⟨hfields2, herr2⟩ := hread
            obtain ⟨me, hme⟩ := herr2 e s'' rfl
            subst hme
            simp only [hread2, Result.mapVal]
            exact ReaderTame.of_err_rt (hfields2.1.trans hfields.1)
              (hfields2.2.1.trans hfields.2.1) (hfields2.2.2.trans hfields.2.2)
          | ok v s'' =>
            rw [hread2] at hread
            obtain ⟨hfields2, _⟩ := hread
            simp only [hread2, Result.mapVal]
            exact ReaderTame.of_ok_fields (hfields2.1.trans hfields.1)
              (hfields2.2.1.trans hfields.2.1) (hfields2.2.2.trans hfields.2.2)
    | cons b r =>
      unfold read_variant_go
      cases hres : a.isType idx name s with
      | err e s' =>
        rw [hres] at hit
        obtain ⟨hfields, herr⟩ := hit
        obtain ⟨me, hme⟩ := herr e s' rfl
        subst hme
        exact ReaderTame.of_err_rt hfields.1 hfields.2.1 hfields.2.2
      | ok bb s' =>
        rw [hres] at hit
        obtain ⟨hfields, _⟩ := hit
        cases bb with
        | false =>
          have hrec := ih (fun al hal => hall al (List.mem_cons_of_mem a hal))
            (t + 1) idx name s'
          cases hrec2 : read_variant_go (b :: r) (t + 1) idx name s' with
          | err e s'' =>
            rw [hrec2] at hrec
            obtain ⟨hfields2, herr2⟩ := hrec
            obtain ⟨me, hme⟩ := herr2 e s'' rfl
            subst hme
            simp only [hrec2]
            exact ReaderTame.of_err_rt (hfields2.1.trans hfields.1)
              (hfields2.2.1.trans hfields.2.1) (hfields2.2.2.trans hfields.2.2)
          | ok v s'' =>
            rw [hrec2] at hrec
            obtain ⟨hfields2, _⟩ := hrec
            simp only [hrec2]
            exact ReaderTame.of_ok_fields (hfields2.1.trans hfields.1)
              (hfields2.2.1.trans hfields.2.1) (hfields2.2.2.trans hfields.2.2)
        | true =>
          have hread := ha.2 idx name s'
          cases hread2 : a.read idx name s' with
          | err e s'' =>
            rw [hread2] at hread
            obtain ⟨hfields2, herr2⟩ := hread
            obtain ⟨me, hme⟩ := herr2 e s'' rfl
            subst hme
            simp only [hread2, Result.mapVal]
            exact ReaderTame.of_err_rt (hfields2.1.trans hfields.1)
              (hfields2.2.1.trans hfields.2.1) (hfields2.2.2.trans hfields.2.2)
          | ok v s'' =>
            rw [hread2] at hread
            obtain ⟨hfields2, _⟩ := hread
            simp only [hread2, Result.mapVal]
            exact ReaderTame.of_ok_fields (hfields2.1.trans hfields.1)
              (hfields2.2.1.trans hfields.2.1) (hfields2.2.2.trans hfields.2.2)

mutual

theorem math_read_shape_tame : ∀ (shp : PShape) (idx : Nat) (name : String)
    (s : MathState), ReaderTame (math_read_shape shp idx name s) s
  | .atom a, idx, name, s => math_read_atom_tame a idx name s
  | .opt t, idx, name, s =>
    math_read_optional_tame (fun i n s' => math_read_shape_tame t i n s') idx name s
  | .tuple ts, idx, name, s =>
    math_read_tuple_tame (fun r hr i n s' => math_read_shapes_tame ts r hr i n s')
      idx name s
  | .variant alts, idx, name, s => by
    apply read_variant_go_tame
    intro al hal
    simp only [List.mem_map] at hal
    obtain ⟨a, _, ha⟩ := hal
    subst ha
    exact ⟨math_is_type_atom_tame a, math_read_atom_tame a⟩

theorem math_read_shapes_tame : ∀ (ts : List PShape) (r : MParamReader),
    r ∈ math_read_shapes ts → ∀ (idx : Nat) (name : String) (s : MathState),
      ReaderTame (r idx name s) s
  | [], r, hr => by simp [math_read_shapes] at hr
  | t :: ts, r, hr => by
    simp only [math_read_shapes, List.mem_cons] at hr
    cases hr with
    | inl h => exact h ▸ (fun i n s' => math_read_shape_tame t i n s')
    | inr h => exact math_read_shapes_tame ts r h

end

/-! ## The user function body only appends data output and only raises
`std::runtime_error` -/

theorem math_run_acts_ok_spec :
    ∀ (acts : List MathAct) (s : MathState) (u : Unit) (s1 : MathState),
      math_run_acts acts s = .ok u s1 →
      ∃ d, s1.out = s.out ++ d ∧ (∀ x ∈ d, WSOut.isData x = true) ∧
        s1.hasResult = (s.hasResult || acts.any MathAct.isWrite) ∧ s1.ns = s.ns := by
  intro acts
  induction acts with
  | nil =>
    intro s u s1 h
    simp [math_run_acts] at h
    exact ⟨[], by simp [← h], by simp, by simp [← h], by simp [← h]⟩
  | cons a rest ih =>
    intro s u s1 h
    cases a with
    | actWriteInt n =>
      have h' : math_run_acts rest (math_write_result_int n s) = .ok u s1 := h
      obtain ⟨d, hout, hdata, hres, hns⟩ := ih (math_write_result_int n s) u s1 h'
      refine ⟨.oInt n :: d, ?_, ?_, ?_, hns⟩
      · simpa [math_write_result_int, wsPutInteger32] using hout
      · intro x hx
        cases hx with
        | head => rfl
        | tail _ hx' => exact hdata x hx'
      · simp only [hres, math_write_result_int, wsPutInteger32]
        simp [MathAct.isWrite]
    | actWriteStr t =>
      have h' : math_run_acts rest (math_write_result_str t s) = .ok u s1 := h
      obtain ⟨d, hout, hdata, hres, hns⟩ := ih (math_write_result_str t s) u s1 h'
      refine ⟨.oStr t :: d, ?_, ?_, ?_, hns⟩
      · simpa [math_write_result_str, wsPutString] using hout
      · intro x hx
        cases hx with
        | head => rfl
        | tail _ hx' => exact hdata x hx'
      · simp only [hres, math_write_result_str, wsPutString]
        simp [MathAct.isWrite]
    | actRead shp idx name =>
      have htame := math_read_shape_tame shp idx name s
      unfold math_run_acts at h
      cases hres : math_read_shape shp idx name s with
      | err e s' => rw [hres] at h; exact absurd h (by simp)
      | ok v s' =>
        rw [hres] at h
        rw [hres] at htame
        obtain ⟨⟨hfr, hfo, hfn⟩, _⟩ := htame
        simp only [Result.state] at hfr hfo hfn
        obtain ⟨d, hout, hdata, hres2, hns⟩ := ih s' u s1 h
        refine ⟨d, ?_, hdata, ?_, ?_⟩
        · rw [hout, hfo]
        · rw [hres2, hfr]
          simp [MathAct.isWrite]
        · rw [hns, hfn]
    | actRaise e =>
      exact absurd h (by simp [math_run_acts])

theorem math_run_acts_err_spec :
    ∀ (acts : List MathAct) (s : MathState) (e : Exn) (s1 : MathState),
      math_run_acts acts s = .err e s1 →
      (∃ me, e = .rt me) ∧
        ∃ d, s1.out = s.out ++ d ∧ (∀ x ∈ d, WSOut.isData x = true) ∧ s1.ns = s.ns := by
  intro acts
  induction acts with
  | nil =>
    intro s e s1 h
    simp [math_run_acts] at h
  | cons a rest ih =>
    intro s e s1 h
    cases a with
    | actWriteInt n =>
      have h' : math_run_acts rest (math_write_result_int n s) = .err e s1 := h
      obtain ⟨hrt, d, hout, hdata, hns⟩ := ih (math_write_result_int n s) e s1 h'
      refine ⟨hrt, .oInt n :: d, ?_, ?_, hns⟩
      · simpa [math_write_result_int, wsPutInteger32] using hout
      · intro x hx
        cases hx with
        | head => rfl
        | tail _ hx' => exact hdata x hx'
    | actWriteStr t =>
      have h' : math_run_acts rest (math_write_result_str t s) = .err e s1 := h
      obtain ⟨hrt, d, hout, hdata, hns⟩ := ih (math_write_result_str t s) e s1 h'
      refine ⟨hrt, .oStr t :: d, ?_, ?_, hns⟩
      · simpa [math_write_result_str, wsPutString] using hout
      · intro x hx
        cases hx with
        | head => rfl
        | tail _ hx' => exact hdata x hx'
    | actRead shp idx name =>
      have htame := math_read_shape_tame shp idx name s
      unfold math_run_acts at h
      cases hres : math_read_shape shp idx name s with
      | ok v s' =>
        rw [hres] at h
        obtain ⟨hrt, d, hout, hdata, hns⟩ := ih s' e s1 h
        rw [hres] at htame
        obtain ⟨⟨_, hfo, hfn⟩, _⟩ := htame
        simp only [Result.state] at hfo hfn
        exact ⟨hrt, d, by rw [hout, hfo], hdata, by rw [hns, hfn]⟩
      | err e' s' =>
        rw [hres] at h
        simp only [Result.err.injEq] at h
        rw [hres] at htame
        obtain ⟨⟨hfr, hfo, hfn⟩, herr⟩ := htame
        simp only [Result.state] at hfr hfo hfn
        obtain ⟨me, hme⟩ := herr e' s' rfl
        refine ⟨⟨me, by rw [← h.1, hme]⟩, [], ?_, by simp, ?_⟩
        · rw [← h.2]; simpa using hfo
        · rw [← h.2]; exact hfn
    | actRaise e' =>
      unfold math_run_acts at h
      simp only [Result.err.injEq] at h
      exact ⟨⟨e', h.1.symm⟩, [], by simp [← h.2], by simp, by simp [← h.2]⟩

/-! ## Counting controller signals in the output log -/

theorem countFailureSignals_data_zero (d : List WSOut)
    (hd : ∀ x ∈ d, WSOut.isData x = true) : countFailureSignals d = 0 := by
  unfold countFailureSignals
  rw [List.countP_eq_zero]
  intro x hx
  have := hd x hx
  cases x <;> simp_all [WSOut.isData, WSOut.isFailureHead]

theorem countNullPlaceholders_data_zero (d : List WSOut)
    (hd : ∀ x ∈ d, WSOut.isData x = true) : countNullPlaceholders d = 0 := by
  unfold countNullPlaceholders
  rw [List.countP_eq_zero]
  intro x hx
  have := hd x hx
  cases x <;> simp_all [WSOut.isData, WSOut.isNullSym]

theorem countFailureSignals_failureSeq (ns msgName msg : String) :
    countFailureSignals
      [.oNewPacket, .oFunc "EvaluatePacket" 1, .oFunc "Message" 2,
       .oFunc "MessageName" 2, .oSym ns, .oStr msgName, .oStr msg, .oFlush,
       .oNextPacket, .oNewPacket, .oSym "$Failed"] = 1 := by
  simp [countFailureSignals, List.countP_cons, WSOut.isFailureHead]

theorem countNullPlaceholders_failureSeq (ns msgName msg : String)
    (hns : ns ≠ "Null") :
    countNullPlaceholders
      [.oNewPacket, .oFunc "EvaluatePacket" 1, .oFunc "Message" 2,
       .oFunc "MessageName" 2, .oSym ns, .oStr msgName, .oStr msg, .oFlush,
       .oNextPacket, .oNewPacket, .oSym "$Failed"] = 0 := by
  simp [countNullPlaceholders, List.countP_cons, WSOut.isNullSym, hns]

theorem outDelta_append (s s' : MathState) (d : List WSOut)
    (h : s'.out = s.out ++ d) : outDelta s s' = d := by
  simp [outDelta, h]

/-- Claim C1: one invocation of the Mathematica call-session controller over
any user function body (a sequence of shape reads, result writes and
`std::runtime_error` raises) produces exactly one of: the user's own results
(no placeholder, no failure signal), the `Null` placeholder (when the body
returns without writing a result), or exactly one failure signal (when the
body raises) — and after finalization, on the failure path included, the
cursor is reset to the closed sentinel.  (The namespace symbol is assumed
distinct from `Null` so that placeholder counting is unambiguous.) -/
theorem claim_C1 (acts : List MathAct) (s : MathState) (hns : s.ns ≠ "Null") :
    ∃ s', math_run_function (math_run_acts acts) s = .ok true s' ∧
      s'.cursor = closedSentinel ∧
      (∀ (u : Unit) s1, math_run_acts acts (mathSessionInit s) = .ok u s1 →
        ((acts.any MathAct.isWrite = true →
            countNullPlaceholders (outDelta s s') = 0 ∧
            countFailureSignals (outDelta s s') = 0) ∧
         (acts.any MathAct.isWrite = false →
            countNullPlaceholders (outDelta s s') = 1 ∧
            countFailureSignals (outDelta s s') = 0))) ∧
      (∀ (e : Exn) s1, math_run_acts acts (mathSessionInit s) = .err e s1 →
        countFailureSignals (outDelta s s') = 1 ∧
        countNullPlaceholders (outDelta s s') = 0) := by
  cases hr : math_run_acts acts (mathSessionInit s) with
  | ok u s1 =>
    obtain ⟨d, hout, hdata, hres, hns1⟩ :=
      math_run_acts_ok_spec acts (mathSessionInit s) u s1 hr
    have hout' : s1.out = s.out ++ d := hout
    have hres' : s1.hasResult = acts.any MathAct.isWrite := by
      simpa [mathSessionInit] using hres
    unfold math_run_function
    rw [hr]
    by_cases hw : acts.any MathAct.isWrite = true
    · refine ⟨{ s1 with cursor := closedSentinel }, by simp [hres', hw], rfl, ?_, ?_⟩
      · intro u' s1' _
        have hdelta : outDelta s { s1 with cursor := closedSentinel } = d :=
          outDelta_append _ _ d hout'
        constructor
        · intro _
          rw [hdelta]
          exact ⟨countNullPlaceholders_data_zero d hdata,
            countFailureSignals_data_zero d hdata⟩
        · intro hfalse
          rw [hw] at hfalse
          exact absurd hfalse (by simp)
      · intro e s1' h'
        exact absurd h' (by simp)
    · have hw' : acts.any MathAct.isWrite = false := by
        cases hval : acts.any MathAct.isWrite with
        | true => exact absurd hval hw
        | false => rfl
      refine ⟨{ wsPutSymbol "Null" s1 with cursor := closedSentinel },
        by simp [hres', hw'], rfl, ?_, ?_⟩
      · intro u' s1' _
        have hdelta : outDelta s { wsPutSymbol "Null" s1 with cursor := closedSentinel } =
            d ++ [.oSym "Null"] := by
          apply outDelta_append
          simp [wsPutSymbol, hout']
        constructor
        · intro htrue
          rw [hw'] at htrue
          exact absurd htrue (by simp)
        · intro _
          rw [hdelta]
          constructor
          · unfold countNullPlaceholders
            rw [List.countP_append]
            have h0 : countNullPlaceholders d = 0 :=
              countNullPlaceholders_data_zero d hdata
            unfold countNullPlaceholders at h0
            rw [h0]
            simp [WSOut.isNullSym]
          · unfold countFailureSignals
            rw [List.countP_append]
            have h0 : countFailureSignals d = 0 :=
              countFailureSignals_data_zero d hdata
            unfold countFailureSignals at h0
            rw [h0]
            simp [WSOut.isFailureHead]
      · intro e s1' h'
        exact absurd h' (by simp)
  | err e s1 =>
    obtain ⟨⟨me, hme⟩, d, hout, hdata, hns1⟩ :=
      math_run_acts_err_spec acts (mathSessionInit s) e s1 hr
    subst hme
    have hout' : s1.out = s.out ++ d := hout
    have hns1' : s1.ns = s.ns := hns1
    unfold math_run_function
    rw [hr]
    refine ⟨{ math_send_failure (Exn.what (.rt me)) "err" s1 with
        cursor := closedSentinel }, rfl, rfl, ?_, ?_⟩
    · intro u' s1' h'
      exact absurd h' (by simp)
    · intro e' s1' _
      have hdelta : outDelta s
          { math_send_failure (Exn.what (.rt me)) "err" s1 with
            cursor := closedSentinel } =
          d ++ [.oNewPacket, .oFunc "EvaluatePacket" 1, .oFunc "Message" 2,
            .oFunc "MessageName" 2, .oSym s1.ns, .oStr "err",
            .oStr (Exn.what (.rt me)), .oFlush, .oNextPacket, .oNewPacket,
            .oSym "$Failed"] := by
        apply outDelta_append
        simp [math_send_failure, hout']
      rw [hdelta]
      constructor
      · unfold countFailureSignals
        rw [List.countP_append]
        have h0 : countFailureSignals d = 0 := countFailureSignals_data_zero d hdata
        have h1 := countFailureSignals_failureSeq s1.ns "err" (Exn.what (.rt me))
        unfold countFailureSignals at h0 h1
        rw [h0, h1]
      · unfold countNullPlaceholders
        rw [List.countP_append]
        have h0 : countNullPlaceholders d = 0 :=
          countNullPlaceholders_data_zero d hdata
        have h1 := countNullPlaceholders_failureSeq s1.ns "err"
          (Exn.what (.rt me)) (by rw [hns1']; exact hns)
        unfold countNullPlaceholders at h0 h1
        rw [h0, h1]

/-- Witness for C1: a body writing one int result completes with neither a
placeholder nor a failure signal, and the cursor ends at the closed
sentinel. -/
theorem claim_C1_witness :
    ∃ s', math_run_function (math_run_acts [.actWriteInt 42])
        ⟨[], 0, 5, true, [], "NS"⟩ = .ok true s' ∧
      s'.cursor = closedSentinel ∧
      (∀ (u : Unit) s1,
        math_run_acts [.actWriteInt 42]
            (mathSessionInit ⟨[], 0, 5, true, [], "NS"⟩) = .ok u s1 →
        (([MathAct.actWriteInt 42].any MathAct.isWrite = true →
            countNullPlaceholders (outDelta ⟨[], 0, 5, true, [], "NS"⟩ s') = 0 ∧
            countFailureSignals (outDelta ⟨[], 0, 5, true, [], "NS"⟩ s') = 0) ∧
         ([MathAct.actWriteInt 42].any MathAct.isWrite = false →
            countNullPlaceholders (outDelta ⟨[], 0, 5, true, [], "NS"⟩ s') = 1 ∧
            countFailureSignals (outDelta ⟨[], 0, 5, true, [], "NS"⟩ s') = 0))) ∧
      (∀ (e : Exn) s1,
        math_run_acts [.actWriteInt 42]
            (mathSessionInit ⟨[], 0, 5, true, [], "NS"⟩) = .err e s1 →
        countFailureSignals (outDelta ⟨[], 0, 5, true, [], "NS"⟩ s') = 1 ∧
        countNullPlaceholders (outDelta ⟨[], 0, 5, true, [], "NS"⟩ s') = 0) :=
  claim_C1 [.actWriteInt 42] ⟨[], 0, 5, true, [], "NS"⟩ (by decide)

end Omw
